import Mathlib

/-!
# rate-limiter: token bucket and leaky bucket admission control

A shallow embedding of `rate_limiter.go`, `token_bucket.go` and `leaky_bucket.go`.

Modelling conventions.

* `int64` values are integers of `Int`; every arithmetic result that the Go code stores in an
  `int64` is reduced by `wrap64` (two's-complement wrap-around, which is what Go's `+`, `-` and
  `atomic.AddInt64` do).
* A limiter is a record of its Go fields plus bookkeeping of what the Go runtime holds for it:
  the goroutines launched by `go r.start()` that have not begun yet (`pendingStarts`), the number
  of values sent on `stopChan` (`stopSignals`) and, for the leaky bucket, the callers suspended
  on `allowedRequestChan` and the callers that were released.
* The token bucket's counter is shared by the callers and the worker, and the code touches it
  by separate atomic operations. `TokenBucketProcess` is the limiter together with the values
  its goroutines hold between their operations; `TokenBucketOp` lists the atomic operations
  (the load and the add of `AllowRequest`, the two loads and the add of the refill, and the
  calls that are one operation); `TokenBucketProcess.exec` applies them in any order.
  `TokenBucketRateLimiter.run` is the special case in which every call and every refill runs
  to its end before the next begins.
* For the leaky bucket each method call and each worker step is one transition, with the
  scheduling choices the code leaves open given as arguments. Time itself is not modelled: a
  tick is an event.
* A `panic` is an outcome of its own that carries the state in which the panic leaves the
  limiter.
-/

namespace RateLimiter

/-! ## int64 -/

/-- The smallest `int64`. -/
def minInt64 : Int := -9223372036854775808

/-- The largest `int64`. -/
def maxInt64 : Int := 9223372036854775807

/-- The integer is an `int64` value. -/
def isInt64 (x : Int) : Prop := -9223372036854775808 ≤ x ∧ x ≤ 9223372036854775807

instance (x : Int) : Decidable (isInt64 x) := by
  unfold isInt64
  exact inferInstance

/-- Two's-complement reduction of an integer to the `int64` range. -/
def wrap64 (x : Int) : Int :=
  (x + 9223372036854775808) % 18446744073709551616 - 9223372036854775808

/-! ## rate_limiter.go -/

/-- The dynamic type of a value passed as `Request` (an empty interface): a
`*TokenBucketRateLimiterRequest`, a `*LeakyBucketRateLimiterRequest` with its `Id`, or a value of
any other type. -/
inductive Request where
  | tokenBucket : Request
  | leakyBucket (Id : Int) : Request
  | other : Request
  deriving DecidableEq

/-- The struct `Frequency`: `Unit` requests per `Interval` (a `time.Duration`, in nanoseconds). -/
structure Frequency where
  Unit : Int
  Interval : Int
  deriving DecidableEq

/-- What a call does: it returns a value, or it panics; either way it leaves a state. -/
inductive Outcome (σ : Type) (ρ : Type) where
  | ok (s : σ) (r : ρ) : Outcome σ ρ
  | panic (s : σ) : Outcome σ ρ
  deriving DecidableEq

/-- The state a call leaves behind. -/
def Outcome.state {σ ρ : Type} : Outcome σ ρ → σ
  | .ok s _ => s
  | .panic s => s

/-- The value a call returned, if it returned. -/
def Outcome.result {σ ρ : Type} : Outcome σ ρ → Option ρ
  | .ok _ r => some r
  | .panic _ => none

/-! ## token_bucket.go -/

/-- The struct `TokenBucketRateLimiter`, with the launched-but-not-begun `start` goroutines and
the count of values sent on `stopChan`. -/
structure TokenBucketRateLimiter where
  frequency : Frequency
  currentToken : Int
  isStarted : Bool
  pendingStarts : Nat
  stopSignals : Nat
  deriving DecidableEq

/-- `NewTokenBucketRateLimiter(f)`: zero counter, not started, one `go r.start()` launched. -/
def NewTokenBucketRateLimiter (f : Frequency) : TokenBucketRateLimiter :=
  { frequency := f, currentToken := 0, isStarted := false, pendingStarts := 1, stopSignals := 0 }

namespace TokenBucketRateLimiter

/-- `Stop()`: nothing when not started; otherwise clears the flag and sends on `stopChan`, which
the worker receives in its `select` and returns. -/
def Stop (r : TokenBucketRateLimiter) : TokenBucketRateLimiter :=
  if !r.isStarted then r
  else { r with isStarted := false, stopSignals := r.stopSignals + 1 }

/-- `SetFrequency(f)`: stores `f`, calls `Stop()`, launches `go r.start()`. -/
def SetFrequency (r : TokenBucketRateLimiter) (f : Frequency) : TokenBucketRateLimiter :=
  let r1 := { r with frequency := f }
  let r2 := r1.Stop
  { r2 with pendingStarts := r2.pendingStarts + 1 }

/-- `AllowRequest(req)`: panics on a request of another type; otherwise loads the counter and,
when it is positive, adds `-1` and returns `true`; else returns `false`. -/
def AllowRequest (r : TokenBucketRateLimiter) (req : Request) :
    Outcome TokenBucketRateLimiter Bool :=
  match req with
  | .tokenBucket =>
    let currentToken := r.currentToken
    if currentToken > 0 then
      .ok { r with currentToken := wrap64 (r.currentToken + (-1)) } true
    else
      .ok r false
  | _ => .panic r

/-- `CurrentToken()`. -/
def CurrentToken (r : TokenBucketRateLimiter) : Int := r.currentToken

/-- The first atomic operation of `AllowRequest` on a request of the right type:
`atomic.LoadInt64(&r.currentToken)`, the value the caller keeps in its local `currentToken`. -/
def AllowRequest_load (r : TokenBucketRateLimiter) : Int := r.currentToken

/-- The rest of `AllowRequest`, run on the limiter as it is by then with the value loaded
earlier: the test of the loaded value and `atomic.AddInt64(&r.currentToken, int64(-1))`. -/
def AllowRequest_add (r : TokenBucketRateLimiter) (currentToken : Int) :
    TokenBucketRateLimiter × Bool :=
  if currentToken > 0 then
    ({ r with currentToken := wrap64 (r.currentToken + (-1)) }, true)
  else
    (r, false)

/-- The beginning of `start()` in a launched goroutine: returns at once when the limiter is
started; otherwise sets the flag and creates the ticker, and `time.NewTicker` panics on an
interval that is not positive. -/
def start (r : TokenBucketRateLimiter) : Outcome TokenBucketRateLimiter Unit :=
  if r.isStarted then .ok r ()
  else
    let r1 := { r with isStarted := true }
    if r1.frequency.Interval ≤ 0 then .panic r1 else .ok r1 ()

/-- The `case <-ticker.C` body of the loop in `start()`: the refill. -/
def refill (r : TokenBucketRateLimiter) : TokenBucketRateLimiter :=
  let currentToken := r.currentToken
  let maxTokenToAdd := r.frequency.Unit
  if currentToken > maxTokenToAdd then
    { r with currentToken := wrap64 (r.currentToken + maxTokenToAdd) }
  else
    { r with currentToken := wrap64 (r.currentToken + wrap64 (maxTokenToAdd - currentToken)) }

/-- The last operation of the refill, run on the limiter as it is by then with the two values
loaded earlier: the comparison of the loaded values and the `atomic.AddInt64`. -/
def refill_add (r : TokenBucketRateLimiter) (currentToken maxTokenToAdd : Int) :
    TokenBucketRateLimiter :=
  if currentToken > maxTokenToAdd then
    { r with currentToken := wrap64 (r.currentToken + maxTokenToAdd) }
  else
    { r with currentToken := wrap64 (r.currentToken + wrap64 (maxTokenToAdd - currentToken)) }

/-- One tick of the ticker: the running worker refills; without a worker nothing happens. -/
def tick (r : TokenBucketRateLimiter) : TokenBucketRateLimiter :=
  if r.isStarted then r.refill else r

/-- A launched goroutine begins to run `start()`; nothing when none is pending. -/
def workerBegin (r : TokenBucketRateLimiter) : Outcome TokenBucketRateLimiter Unit :=
  if r.pendingStarts = 0 then .ok r ()
  else start { r with pendingStarts := r.pendingStarts - 1 }

end TokenBucketRateLimiter

/-- Where the worker is inside one pass of the `case <-ticker.C` body: in its `select`, past
the load of the counter (holding `currentToken`), or past the load of `Unit` as well (holding
`currentToken` and `maxTokenToAdd`). -/
inductive RefillProgress where
  | idle : RefillProgress
  | loadedToken (currentToken : Int) : RefillProgress
  | loadedUnit (currentToken maxTokenToAdd : Int) : RefillProgress
  deriving DecidableEq

/-- A token bucket together with what its goroutines hold in local variables in the middle of
an operation: for every caller that is inside `AllowRequest` between its load and its add the
value it loaded (in the order the callers loaded), and the progress of the worker's refill. -/
structure TokenBucketProcess where
  limiter : TokenBucketRateLimiter
  inFlight : List Int
  refilling : RefillProgress
  deriving DecidableEq

/-- The atomic operations on a token bucket. `AllowRequest` is two of them, its load and its
add; the refill is three, the load of the counter, the load of `Unit` and the add. Operations of
different goroutines may come in any order. -/
inductive TokenBucketOp where
  | allowLoad (req : Request) : TokenBucketOp
  | allowAdd (caller : Nat) : TokenBucketOp
  | tickLoadToken : TokenBucketOp
  | tickLoadUnit : TokenBucketOp
  | tickAdd : TokenBucketOp
  | workerBegin : TokenBucketOp
  | stop : TokenBucketOp
  | setFrequency (f : Frequency) : TokenBucketOp
  deriving DecidableEq

/-- A limiter with no caller inside `AllowRequest` and the worker not inside a refill. -/
def TokenBucketRateLimiter.atRest (r : TokenBucketRateLimiter) : TokenBucketProcess :=
  { limiter := r, inFlight := [], refilling := .idle }

namespace TokenBucketProcess

/-- One atomic operation.
* `allowLoad req`: a caller enters `AllowRequest`; a request of another type panics, otherwise
  the caller loads the counter and is in flight.
* `allowAdd caller`: the caller at that position among those in flight tests the value it
  loaded, adds `-1` when it was positive, and returns.
* `tickLoadToken`: the ticker fires at a running worker in its `select`; it loads the counter.
* `tickLoadUnit`, `tickAdd`: the worker goes on with the refill it has begun.
* `workerBegin`, `stop`, `setFrequency f`: as on the limiter; the state a panic leaves is
  kept. A refill that has begun is completed by its remaining operations. -/
def apply (s : TokenBucketProcess) : TokenBucketOp → TokenBucketProcess
  | .allowLoad req =>
    match req with
    | .tokenBucket => { s with inFlight := s.inFlight ++ [s.limiter.AllowRequest_load] }
    | _ => s
  | .allowAdd caller =>
    match s.inFlight.get? caller with
    | none => s
    | some currentToken =>
      { s with limiter := (s.limiter.AllowRequest_add currentToken).1,
               inFlight := s.inFlight.eraseIdx caller }
  | .tickLoadToken =>
    match s.refilling with
    | .idle =>
      if s.limiter.isStarted then { s with refilling := .loadedToken s.limiter.currentToken }
      else s
    | _ => s
  | .tickLoadUnit =>
    match s.refilling with
    | .loadedToken currentToken =>
      { s with refilling := .loadedUnit currentToken s.limiter.frequency.Unit }
    | _ => s
  | .tickAdd =>
    match s.refilling with
    | .loadedUnit currentToken maxTokenToAdd =>
      { s with limiter := s.limiter.refill_add currentToken maxTokenToAdd, refilling := .idle }
    | _ => s
  | .workerBegin => { s with limiter := s.limiter.workerBegin.state }
  | .stop => { s with limiter := s.limiter.Stop }
  | .setFrequency f => { s with limiter := s.limiter.SetFrequency f }

/-- A finite sequence of atomic operations applied in order. -/
def exec (s : TokenBucketProcess) : List TokenBucketOp → TokenBucketProcess
  | [] => s
  | op :: ops => exec (s.apply op) ops

/-- The number of `AllowRequest` calls that return `true` in the course of the operations. -/
def admitted (s : TokenBucketProcess) : List TokenBucketOp → Nat
  | [] => 0
  | op :: ops =>
    (match op with
      | .allowAdd caller =>
        match s.inFlight.get? caller with
        | none => 0
        | some currentToken => if (s.limiter.AllowRequest_add currentToken).2 then 1 else 0
      | _ => 0) + admitted (s.apply op) ops

/-- No two `AllowRequest` calls overlap: whenever a caller loads, no other caller is between
its load and its add. -/
def callsApart (s : TokenBucketProcess) : List TokenBucketOp → Prop
  | [] => True
  | op :: ops =>
    (∀ req, op = .allowLoad req → s.inFlight = []) ∧ callsApart (s.apply op) ops

/-- No refill leaves `int64`: whenever the worker adds on the `currentToken > maxTokenToAdd`
branch, the sum it stores is at most the largest `int64`. -/
def refillsInRange (s : TokenBucketProcess) : List TokenBucketOp → Prop
  | [] => True
  | op :: ops =>
    (∀ currentToken maxTokenToAdd, op = .tickAdd →
        s.refilling = .loadedUnit currentToken maxTokenToAdd →
        currentToken > maxTokenToAdd → s.limiter.currentToken + maxTokenToAdd ≤ maxInt64) ∧
      refillsInRange (s.apply op) ops

end TokenBucketProcess

/-- The events of a token bucket's life in which nothing overlaps: a whole `AllowRequest` call,
a whole refill, and the calls that are one operation. -/
inductive TokenBucketEvent where
  | allowRequest (req : Request) : TokenBucketEvent
  | tick : TokenBucketEvent
  | workerBegin : TokenBucketEvent
  | stop : TokenBucketEvent
  | setFrequency (f : Frequency) : TokenBucketEvent
  deriving DecidableEq

/-- The atomic operations of an event that runs with nothing in between. -/
def TokenBucketEvent.ops : TokenBucketEvent → List TokenBucketOp
  | .allowRequest req => [.allowLoad req, .allowAdd 0]
  | .tick => [.tickLoadToken, .tickLoadUnit, .tickAdd]
  | .workerBegin => [.workerBegin]
  | .stop => [.stop]
  | .setFrequency f => [.setFrequency f]

namespace TokenBucketRateLimiter

/-- One event run to its end on a limiter at rest, with no other operation in between. -/
def step (r : TokenBucketRateLimiter) (e : TokenBucketEvent) : TokenBucketRateLimiter :=
  (r.atRest.exec e.ops).limiter

/-- A finite sequence of events, each run to its end before the next begins: the executions in
which no call overlaps another call or a refill. -/
def run (r : TokenBucketRateLimiter) (es : List TokenBucketEvent) : TokenBucketRateLimiter :=
  (r.atRest.exec (es.flatMap TokenBucketEvent.ops)).limiter

end TokenBucketRateLimiter

/-! ## leaky_bucket.go -/

/-- Modelled from the spec: the queue type `FixedFIFO` of the imported package
`goconcurrentqueue`, whose source is not in the repository. The spec describes it as a bounded
queue, "fixed capacity set at construction, immutable thereafter; holds pending requests in
strict FIFO order". The oldest element is the head of `items`. -/
structure FixedFIFO where
  items : List Request
  capacity : Int
  deriving DecidableEq

/-- Modelled from the spec: `queue.NewFixedFIFO(capacity)`, an empty queue of that capacity. -/
def NewFixedFIFO (capacity : Int) : FixedFIFO :=
  { items := [], capacity := capacity }

namespace FixedFIFO

/-- Modelled from the spec: `Enqueue`, "Queue full → enqueue fails", otherwise the element goes
to the back; `none` is the error. -/
def Enqueue (q : FixedFIFO) (x : Request) : Option FixedFIFO :=
  if (q.items.length : Int) < q.capacity then some { q with items := q.items ++ [x] } else none

/-- Modelled from the spec: `DequeueOrWaitForNextElement`, which "dequeues the oldest pending
request (blocking itself if the queue is momentarily empty)"; `none` means the caller waits. -/
def DequeueOrWaitForNextElement (q : FixedFIFO) : Option (Request × FixedFIFO) :=
  match q.items with
  | [] => none
  | x :: xs => some (x, { q with items := xs })

end FixedFIFO

/-- The struct `LeakyBucketRateLimiter`, with the launched-but-not-begun `start` goroutines, the
count of values sent on `stopChan`, the callers suspended in `<-r.allowedRequestChan` (each named
by the request it enqueued, in the order they arrived) and the record of every send on
`allowedRequestChan`: the request the worker dequeued and sent, paired with the caller that
received it, whose `AllowRequest` then returned `true`. -/
structure LeakyBucketRateLimiter where
  q : FixedFIFO
  frequency : Frequency
  capacity : Int
  isStarted : Bool
  pendingStarts : Nat
  stopSignals : Nat
  waiting : List Request
  handoffs : List (Request × Request)
  deriving DecidableEq

namespace LeakyBucketRateLimiter

/-- `Stop()`: nothing when not started; otherwise clears the flag and sends on `stopChan`; the
worker receives it in its `select`, replaces the queue by a new empty one and returns. -/
def Stop (r : LeakyBucketRateLimiter) : LeakyBucketRateLimiter :=
  if !r.isStarted then r
  else { r with isStarted := false, stopSignals := r.stopSignals + 1,
                q := NewFixedFIFO r.capacity }

/-- The beginning of `start()` in a launched goroutine: returns at once when the limiter is
started; otherwise sets the flag and creates the ticker, and `time.NewTicker` panics on an
interval that is not positive. -/
def start (r : LeakyBucketRateLimiter) : Outcome LeakyBucketRateLimiter Unit :=
  if r.isStarted then .ok r ()
  else
    let r1 := { r with isStarted := true }
    if r1.frequency.Interval ≤ 0 then .panic r1 else .ok r1 ()

/-- A launched goroutine begins to run `start()`; nothing when none is pending. -/
def workerBegin (r : LeakyBucketRateLimiter) : Outcome LeakyBucketRateLimiter Unit :=
  if r.pendingStarts = 0 then .ok r ()
  else start { r with pendingStarts := r.pendingStarts - 1 }

/-- `SetFrequency(f)`. `defer r.Stop()` runs when the function leaves, by return or by panic.
With `f.Unit != 1` it panics. Otherwise it stores `f`, calls `Stop()` and launches
`go r.start()`. `early` says whether a launched goroutine begins `start()` before the deferred
`Stop()` runs (the Go scheduler is free to do either); a panic inside that goroutine ends the
process. -/
def SetFrequency (r : LeakyBucketRateLimiter) (f : Frequency) (early : Bool) :
    Outcome LeakyBucketRateLimiter Unit :=
  if f.Unit ≠ 1 then .panic r.Stop
  else
    let r1 := { r with frequency := f }
    let r2 := r1.Stop
    let r3 := { r2 with pendingStarts := r2.pendingStarts + 1 }
    if early then
      match r3.workerBegin with
      | .panic s => .panic s
      | .ok s _ => .ok s.Stop ()
    else .ok r3.Stop ()

/-- `AllowRequest(req)` up to its receive on `allowedRequestChan`: panics on a request of another
type; returns `false` when `Enqueue` fails; otherwise the request is in the queue and the caller
is suspended in `<-r.allowedRequestChan` (result `true`: accepted). The call itself returns
`true` when a `tick` hands a value to this caller. -/
def AllowRequest (r : LeakyBucketRateLimiter) (req : Request) :
    Outcome LeakyBucketRateLimiter Bool :=
  match req with
  | .leakyBucket Id =>
    match r.q.Enqueue (.leakyBucket Id) with
    | none => .ok r false
    | some q1 => .ok { r with q := q1, waiting := r.waiting ++ [.leakyBucket Id] } true
  | _ => .panic r

/-- The `case <-ticker.C` body of the loop in `start()`, for a running worker: it dequeues the
oldest request and sends it on `allowedRequestChan`. The send is received by one of the
suspended callers; the channel does not choose by the value sent, and the receiver discards the
value, so the receiver is given by its position `pick` among the suspended callers. While the
queue is empty the worker waits inside `DequeueOrWaitForNextElement`, and while no caller at
`pick` is there to receive the step does not take place. -/
def tick (r : LeakyBucketRateLimiter) (pick : Nat) : LeakyBucketRateLimiter :=
  if !r.isStarted then r
  else
    match r.q.DequeueOrWaitForNextElement with
    | none => r
    | some (allowedRequest, q1) =>
      match r.waiting.get? pick with
      | none => r
      | some caller =>
        { r with q := q1, waiting := r.waiting.eraseIdx pick,
                 handoffs := r.handoffs ++ [(allowedRequest, caller)] }

end LeakyBucketRateLimiter

/-- `NewLeakyBucketRateLimiter(f, capacity)`: builds the limiter with a new queue, calls
`SetFrequency(f)` (whose panic ends the constructor) and launches `go r.start()`. -/
def NewLeakyBucketRateLimiter (f : Frequency) (capacity : Int) (early : Bool) :
    Outcome LeakyBucketRateLimiter Unit :=
  let r : LeakyBucketRateLimiter :=
    { q := NewFixedFIFO capacity, frequency := { Unit := 0, Interval := 0 },
      capacity := capacity, isStarted := false, pendingStarts := 0, stopSignals := 0,
      waiting := [], handoffs := [] }
  match r.SetFrequency f early with
  | .panic s => .panic s
  | .ok s _ => .ok { s with pendingStarts := s.pendingStarts + 1 } ()

/-- The events of a leaky bucket's life. -/
inductive LeakyBucketEvent where
  | allowRequest (req : Request) : LeakyBucketEvent
  | tick (pick : Nat) : LeakyBucketEvent
  | workerBegin : LeakyBucketEvent
  | stop : LeakyBucketEvent
  | setFrequency (f : Frequency) (early : Bool) : LeakyBucketEvent
  deriving DecidableEq

namespace LeakyBucketRateLimiter

/-- One event applied to a limiter. -/
def step (r : LeakyBucketRateLimiter) : LeakyBucketEvent → LeakyBucketRateLimiter
  | .allowRequest req => (r.AllowRequest req).state
  | .tick pick => r.tick pick
  | .workerBegin => r.workerBegin.state
  | .stop => r.Stop
  | .setFrequency f early => (r.SetFrequency f early).state

/-- A finite sequence of events applied in order. -/
def run (r : LeakyBucketRateLimiter) : List LeakyBucketEvent → LeakyBucketRateLimiter
  | [] => r
  | e :: es => run (r.step e) es

/-- The requests arrive one after another with no worker step in between: the state in the end
and, for each call, what it did: `some true` when the request was accepted into the queue,
`some false` when the call returned `false`, `none` when it panicked. -/
def arrive (r : LeakyBucketRateLimiter) :
    List Request → LeakyBucketRateLimiter × List (Option Bool)
  | [] => (r, [])
  | req :: reqs =>
    let o := r.AllowRequest req
    let rest := arrive o.state reqs
    (rest.1, o.result :: rest.2)

end LeakyBucketRateLimiter

/-! ## Observations on token bucket runs -/

namespace TokenBucketRateLimiter

/-- The number of `AllowRequest` calls that return `true` in a sequence of events in which
nothing overlaps. -/
def admissions (r : TokenBucketRateLimiter) (es : List TokenBucketEvent) : Nat :=
  r.atRest.admitted (es.flatMap TokenBucketEvent.ops)

end TokenBucketRateLimiter

/-- The values a refill in progress holds fit the counter `t`: the counter it loaded is an
`int64` that is at least `t`, and the `Unit` it loaded is a positive `int64`. -/
def RefillProgress.covers (p : RefillProgress) (t : Int) : Prop :=
  match p with
  | .idle => True
  | .loadedToken c => t ≤ c ∧ c ≤ maxInt64
  | .loadedUnit c u => t ≤ c ∧ c ≤ maxInt64 ∧ 0 < u ∧ isInt64 u

namespace TokenBucketProcess

/-- What the counter, the descriptor and the values held in flight satisfy as long as no two
calls overlap and no refill leaves `int64`: the counter is a non-negative `int64`, `Unit` is a
positive `int64`, at most one caller is in flight and the value it loaded is at most the
counter, and the value the worker loaded is at least the counter. -/
def Sound (s : TokenBucketProcess) : Prop :=
  0 ≤ s.limiter.currentToken ∧ s.limiter.currentToken ≤ maxInt64 ∧
    0 < s.limiter.frequency.Unit ∧ isInt64 s.limiter.frequency.Unit ∧
    s.inFlight.length ≤ 1 ∧ (∀ v ∈ s.inFlight, v ≤ s.limiter.currentToken) ∧
    s.refilling.covers s.limiter.currentToken

end TokenBucketProcess

/-- The values a refill in progress holds, at counter `t` and a fixed `Unit = U`: the counter
it loaded is at least `t` and at most `U`, and the `Unit` it loaded is `U`. -/
def RefillProgress.within (p : RefillProgress) (t U : Int) : Prop :=
  match p with
  | .idle => True
  | .loadedToken c => t ≤ c ∧ c ≤ U
  | .loadedUnit c u => t ≤ c ∧ c ≤ U ∧ u = U

namespace TokenBucketProcess

/-- The callers in flight that loaded a positive counter: those that will add `-1`. -/
def positives (fl : List Int) : Nat := fl.countP (fun v => decide (0 < v))

/-- What holds in every interleaving with a fixed `Unit = U` and at most `N` callers in flight:
the counter is at most `U` and at least the number of pending decrements minus `N`, and the
values a refill in progress holds lie between the counter and `U`. -/
def Bounded (U : Int) (N : Nat) (s : TokenBucketProcess) : Prop :=
  s.limiter.frequency.Unit = U ∧ s.limiter.currentToken ≤ U ∧
    (positives s.inFlight : Int) ≤ s.limiter.currentToken + N ∧ s.inFlight.length ≤ N ∧
    s.refilling.within s.limiter.currentToken U

/-- Fewer than `N` callers are in flight whenever a caller loads: at most `N` calls overlap. -/
def fewerInFlight (N : Nat) (s : TokenBucketProcess) : List TokenBucketOp → Prop
  | [] => True
  | op :: ops =>
    (∀ req, op = .allowLoad req → s.inFlight.length < N) ∧ fewerInFlight N (s.apply op) ops

end TokenBucketProcess

/-- Three `AllowRequest` calls that overlap: all load before any adds. -/
def threeOverlapping : List TokenBucketOp :=
  [.allowLoad .tokenBucket, .allowLoad .tokenBucket, .allowLoad .tokenBucket, .allowAdd 2,
   .tickLoadToken, .allowAdd 0, .tickLoadUnit, .allowAdd 0, .tickAdd]

/-! ## Sample states and runs -/

/-- A started token bucket of `Unit = 1` whose counter is the largest `int64`. -/
def brimfulBucket : TokenBucketRateLimiter :=
  { frequency := { Unit := 1, Interval := 1000000 }, currentToken := maxInt64,
    isStarted := true, pendingStarts := 0, stopSignals := 0 }

/-- A started token bucket of `Unit = 2` holding five tokens. -/
def overfullBucket : TokenBucketRateLimiter :=
  { frequency := { Unit := 2, Interval := 1000000 }, currentToken := 5,
    isStarted := true, pendingStarts := 0, stopSignals := 0 }

/-- A started token bucket of `Unit = 1` holding its one token. -/
def lastToken : TokenBucketRateLimiter :=
  { frequency := { Unit := 1, Interval := 1000000 }, currentToken := 1,
    isStarted := true, pendingStarts := 0, stopSignals := 0 }

/-- A started token bucket of `Unit = 5` holding three tokens. -/
def threeTokens : TokenBucketRateLimiter :=
  { frequency := { Unit := 5, Interval := 1000000 }, currentToken := 3,
    isStarted := true, pendingStarts := 0, stopSignals := 0 }

/-- Construction with the largest `Unit`, the worker begins, one tick, `SetFrequency` to
`Unit = 1`, the new worker begins, one tick. -/
def shrinkFromMax : List TokenBucketEvent :=
  [.workerBegin, .tick, .setFrequency { Unit := 1, Interval := 1000000 }, .workerBegin, .tick]

/-- The worker begins, one tick, `SetFrequency` to `Unit = 2`, the new worker begins, one
tick. -/
def shrinkToTwo : List TokenBucketEvent :=
  [.workerBegin, .tick, .setFrequency { Unit := 2, Interval := 1000000 }, .workerBegin, .tick]

/-- The worker begins and refills once. -/
def firstRefill : List TokenBucketOp :=
  [.workerBegin, .tickLoadToken, .tickLoadUnit, .tickAdd]

/-- Two `AllowRequest` calls that overlap: both load before either adds. -/
def twoOverlapping : List TokenBucketOp :=
  [.allowLoad .tokenBucket, .allowLoad .tokenBucket, .allowAdd 0, .allowAdd 0]

/-- The worker begins and refills; a call loads; the refill fires again and loads; the call
adds; `SetFrequency` lowers `Unit` to 2; the refill goes on and adds; a further call. -/
def interleaved : List TokenBucketOp :=
  [.workerBegin, .tickLoadToken, .tickLoadUnit, .tickAdd, .allowLoad .tokenBucket,
   .tickLoadToken, .allowAdd 0, .setFrequency { Unit := 2, Interval := 1000000 },
   .tickLoadUnit, .tickAdd, .allowLoad .tokenBucket, .allowAdd 0]

/-- A leaky bucket of capacity 2 as `NewLeakyBucketRateLimiter` leaves it when no launched
goroutine has begun yet. -/
def freshLeaky : LeakyBucketRateLimiter :=
  (NewLeakyBucketRateLimiter { Unit := 1, Interval := 1000000 } 2 false).state

/-- A running leaky bucket of capacity 2 with request 1 in the queue and its caller suspended. -/
def busyLeaky : LeakyBucketRateLimiter :=
  freshLeaky.run [.workerBegin, .workerBegin, .allowRequest (.leakyBucket 1)]

/-- The worker begins; request 1 then request 2 are accepted; at the tick the caller of
request 2 is the one that receives from `allowedRequestChan`. -/
def overtaking : List LeakyBucketEvent :=
  [.workerBegin, .allowRequest (.leakyBucket 1), .allowRequest (.leakyBucket 2), .tick 1]

/-- The worker begins; request 1 is accepted; `SetFrequency` restarts the worker and drops the
queue; request 2 is accepted; at the tick the longest-suspended caller receives. -/
def staleCaller : List LeakyBucketEvent :=
  [.workerBegin, .allowRequest (.leakyBucket 1),
   .setFrequency { Unit := 1, Interval := 2000000 } false, .workerBegin,
   .allowRequest (.leakyBucket 2), .tick 0]

/-! ## int64 arithmetic -/

theorem wrap64_of_isInt64 (x : Int) (h : isInt64 x) : wrap64 x = x := by
  unfold isInt64 at h
  unfold wrap64
  omega

theorem wrap64_isInt64 (x : Int) : isInt64 (wrap64 x) := by
  unfold isInt64 wrap64
  omega

theorem wrap64_add_wrap64_sub (c u : Int) (hu : isInt64 u) :
    wrap64 (c + wrap64 (u - c)) = u := by
  unfold isInt64 at hu
  unfold wrap64
  omega

/-! ## Token bucket: single steps -/

namespace TokenBucketRateLimiter

theorem Stop_currentToken (r : TokenBucketRateLimiter) :
    r.Stop.currentToken = r.currentToken ∧ r.Stop.frequency = r.frequency := by
  unfold Stop
  split <;> simp

theorem workerBegin_currentToken (r : TokenBucketRateLimiter) :
    r.workerBegin.state.currentToken = r.currentToken ∧
      r.workerBegin.state.frequency = r.frequency := by
  unfold workerBegin start
  by_cases hp : r.pendingStarts = 0
  · simp [hp, Outcome.state]
  · by_cases hs : r.isStarted = true
    · simp [hp, hs, Outcome.state]
    · by_cases hi : r.frequency.Interval ≤ 0 <;> simp [hp, hs, hi, Outcome.state]

theorem AllowRequest_frequency (r : TokenBucketRateLimiter) (req : Request) :
    (r.AllowRequest req).state.frequency = r.frequency := by
  unfold AllowRequest
  cases req with
  | tokenBucket =>
    by_cases hc : r.currentToken > 0 <;> simp [hc, Outcome.state]
  | leakyBucket Id => simp [Outcome.state]
  | other => simp [Outcome.state]

theorem AllowRequest_currentToken (r : TokenBucketRateLimiter) (req : Request)
    (h : r.currentToken ≤ maxInt64) :
    ((r.AllowRequest req).result = some true ∧ 0 < r.currentToken ∧
        (r.AllowRequest req).state.currentToken = r.currentToken - 1) ∨
      ((r.AllowRequest req).result ≠ some true ∧ (r.AllowRequest req).state = r) := by
  unfold AllowRequest
  cases req with
  | tokenBucket =>
    by_cases hc : r.currentToken > 0
    · left
      have hw : wrap64 (r.currentToken + -1) = r.currentToken - 1 := by
        unfold maxInt64 at h
        unfold wrap64
        omega
      simp [hc, Outcome.state, Outcome.result, hw]
    · right
      simp [hc, Outcome.state, Outcome.result]
  | leakyBucket Id => right; simp [Outcome.state, Outcome.result]
  | other => right; simp [Outcome.state, Outcome.result]

theorem refill_frequency (r : TokenBucketRateLimiter) : r.refill.frequency = r.frequency := by
  unfold refill
  by_cases hc : r.currentToken > r.frequency.Unit <;> simp [hc]

theorem refill_le (r : TokenBucketRateLimiter) (hu : isInt64 r.frequency.Unit)
    (hc : r.currentToken ≤ r.frequency.Unit) : r.refill.currentToken = r.frequency.Unit := by
  unfold refill
  have hn : ¬ r.currentToken > r.frequency.Unit := by omega
  simp [hn, wrap64_add_wrap64_sub _ _ hu]

theorem refill_gt (r : TokenBucketRateLimiter) (hc : r.currentToken > r.frequency.Unit) :
    r.refill.currentToken = wrap64 (r.currentToken + r.frequency.Unit) := by
  unfold refill
  simp [hc]

theorem tick_frequency (r : TokenBucketRateLimiter) : r.tick.frequency = r.frequency := by
  unfold tick
  by_cases hs : r.isStarted = true <;> simp [hs, refill_frequency]

theorem refill_eq_refill_add (r : TokenBucketRateLimiter) :
    r.refill = r.refill_add r.currentToken r.frequency.Unit := rfl

/-- A whole `AllowRequest` call with nothing in between is the function `AllowRequest`. -/
theorem step_allowRequest (r : TokenBucketRateLimiter) (req : Request) :
    r.atRest.exec (TokenBucketEvent.allowRequest req).ops
      = (r.AllowRequest req).state.atRest := by
  cases req with
  | tokenBucket =>
    by_cases hc : r.currentToken > 0 <;>
      simp [TokenBucketEvent.ops, TokenBucketProcess.exec, TokenBucketProcess.apply, atRest,
        AllowRequest, AllowRequest_add, AllowRequest_load, Outcome.state, hc]
  | leakyBucket Id =>
    simp [TokenBucketEvent.ops, TokenBucketProcess.exec, TokenBucketProcess.apply, atRest,
      AllowRequest, Outcome.state]
  | other =>
    simp [TokenBucketEvent.ops, TokenBucketProcess.exec, TokenBucketProcess.apply, atRest,
      AllowRequest, Outcome.state]

/-- A whole refill with nothing in between is the function `tick`. -/
theorem step_tick (r : TokenBucketRateLimiter) :
    r.atRest.exec TokenBucketEvent.tick.ops = r.tick.atRest := by
  by_cases hs : r.isStarted = true
  · simp [TokenBucketEvent.ops, TokenBucketProcess.exec, TokenBucketProcess.apply, atRest,
      tick, refill_eq_refill_add, hs]
  · simp [TokenBucketEvent.ops, TokenBucketProcess.exec, TokenBucketProcess.apply, atRest,
      tick, hs]

/-- On a limiter at rest every event leaves a limiter at rest, the one the functions of the
source give. -/
theorem exec_ops (r : TokenBucketRateLimiter) (e : TokenBucketEvent) :
    r.atRest.exec e.ops = (r.step e).atRest ∧
      r.step e = (match e with
        | .allowRequest req => (r.AllowRequest req).state
        | .tick => r.tick
        | .workerBegin => r.workerBegin.state
        | .stop => r.Stop
        | .setFrequency f => r.SetFrequency f) := by
  unfold step
  cases e with
  | allowRequest req => rw [step_allowRequest]; exact ⟨rfl, rfl⟩
  | tick => rw [step_tick]; exact ⟨rfl, rfl⟩
  | workerBegin => exact ⟨rfl, rfl⟩
  | stop => exact ⟨rfl, rfl⟩
  | setFrequency f => exact ⟨rfl, rfl⟩

theorem step_eq_allowRequest (r : TokenBucketRateLimiter) (req : Request) :
    r.step (.allowRequest req) = (r.AllowRequest req).state := (exec_ops r _).2

theorem step_eq_tick (r : TokenBucketRateLimiter) : r.step .tick = r.tick :=
  (exec_ops r _).2

theorem step_eq_workerBegin (r : TokenBucketRateLimiter) :
    r.step .workerBegin = r.workerBegin.state := (exec_ops r _).2

theorem step_eq_stop (r : TokenBucketRateLimiter) : r.step .stop = r.Stop :=
  (exec_ops r _).2

theorem step_eq_setFrequency (r : TokenBucketRateLimiter) (f : Frequency) :
    r.step (.setFrequency f) = r.SetFrequency f := (exec_ops r _).2

theorem exec_append (a b : List TokenBucketOp) :
    ∀ s : TokenBucketProcess, s.exec (a ++ b) = (s.exec a).exec b := by
  induction a with
  | nil => intro s; rfl
  | cons op a ih => intro s; simp only [List.cons_append, TokenBucketProcess.exec]; exact ih _

theorem admitted_append (a b : List TokenBucketOp) :
    ∀ s : TokenBucketProcess, s.admitted (a ++ b) = s.admitted a + (s.exec a).admitted b := by
  induction a with
  | nil => intro s; simp [TokenBucketProcess.admitted, TokenBucketProcess.exec]
  | cons op a ih =>
    intro s
    have h := ih (s.apply op)
    show _ + (s.apply op).admitted (a ++ b)
      = (_ + (s.apply op).admitted a) + ((s.apply op).exec a).admitted b
    rw [h]
    omega

theorem run_nil (r : TokenBucketRateLimiter) : r.run [] = r := rfl

theorem run_cons (r : TokenBucketRateLimiter) (e : TokenBucketEvent)
    (es : List TokenBucketEvent) : r.run (e :: es) = (r.step e).run es := by
  unfold run
  rw [List.flatMap_cons, exec_append, (exec_ops r e).1]

theorem admissions_cons (r : TokenBucketRateLimiter) (e : TokenBucketEvent)
    (es : List TokenBucketEvent) :
    r.admissions (e :: es) =
      (match e with
        | .allowRequest req => if (r.AllowRequest req).result = some true then 1 else 0
        | _ => 0) + (r.step e).admissions es := by
  unfold admissions
  rw [List.flatMap_cons, admitted_append, (exec_ops r e).1]
  congr 1
  cases e with
  | allowRequest req =>
    cases req with
    | tokenBucket =>
      by_cases hc : r.currentToken > 0 <;>
        simp [TokenBucketEvent.ops, TokenBucketProcess.admitted, TokenBucketProcess.apply,
          atRest, AllowRequest, AllowRequest_add, AllowRequest_load, Outcome.result, hc]
    | leakyBucket Id =>
      simp [TokenBucketEvent.ops, TokenBucketProcess.admitted, TokenBucketProcess.apply,
        atRest, AllowRequest, Outcome.result]
    | other =>
      simp [TokenBucketEvent.ops, TokenBucketProcess.admitted, TokenBucketProcess.apply,
        atRest, AllowRequest, Outcome.result]
  | tick => simp [TokenBucketEvent.ops, TokenBucketProcess.admitted]
  | workerBegin => simp [TokenBucketEvent.ops, TokenBucketProcess.admitted]
  | stop => simp [TokenBucketEvent.ops, TokenBucketProcess.admitted]
  | setFrequency f => simp [TokenBucketEvent.ops, TokenBucketProcess.admitted]

/-- With a fixed descriptor `Unit = U > 0` the counter stays within `0 .. U`. -/
theorem step_within_unit (U : Int) (r : TokenBucketRateLimiter) (e : TokenBucketEvent)
    (hU : isInt64 U) (hpos : 0 < U) (hunit : r.frequency.Unit = U)
    (hge : 0 ≤ r.currentToken) (hle : r.currentToken ≤ U) (he : ∀ f, e ≠ .setFrequency f) :
    (r.step e).frequency.Unit = U ∧ 0 ≤ (r.step e).currentToken ∧
      (r.step e).currentToken ≤ U := by
  have hmax : r.currentToken ≤ maxInt64 := by
    unfold isInt64 at hU
    unfold maxInt64
    omega
  cases e with
  | allowRequest req =>
    rw [step_eq_allowRequest]
    rw [AllowRequest_frequency]
    rcases AllowRequest_currentToken r req hmax with ⟨_, h0, h1⟩ | ⟨_, h1⟩
    · rw [h1]; omega
    · rw [h1]; omega
  | tick =>
    rw [step_eq_tick]
    rw [tick_frequency]
    refine ⟨hunit, ?_⟩
    unfold tick
    by_cases hs : r.isStarted = true
    · have := refill_le r (hunit ▸ hU) (hunit ▸ hle)
      simp only [hs, if_true]
      omega
    · simp only [hs]
      exact ⟨hge, hle⟩
  | workerBegin =>
    rw [step_eq_workerBegin]
    obtain ⟨h1, h2⟩ := workerBegin_currentToken r
    rw [h1, h2]
    exact ⟨hunit, hge, hle⟩
  | stop =>
    rw [step_eq_stop]
    obtain ⟨h1, h2⟩ := Stop_currentToken r
    rw [h1, h2]
    exact ⟨hunit, hge, hle⟩
  | setFrequency f => exact absurd rfl (he f)

theorem run_within_unit (U : Int) (es : List TokenBucketEvent) (hU : isInt64 U) (hpos : 0 < U) :
    ∀ r : TokenBucketRateLimiter, r.frequency.Unit = U → 0 ≤ r.currentToken →
      r.currentToken ≤ U → (∀ f, TokenBucketEvent.setFrequency f ∉ es) →
      (r.run es).frequency.Unit = U ∧ 0 ≤ (r.run es).currentToken ∧
        (r.run es).currentToken ≤ U := by
  induction es with
  | nil => intro r h1 h2 h3 _; rw [run_nil]; exact ⟨h1, h2, h3⟩
  | cons e es ih =>
    intro r h1 h2 h3 hno
    have he : ∀ f, e ≠ .setFrequency f := by
      intro f hf
      exact hno f (by simp [hf])
    obtain ⟨a, b, c⟩ := step_within_unit U r e hU hpos h1 h2 h3 he
    rw [run_cons]
    exact ih (r.step e) a b c (fun f hf => hno f (List.mem_cons_of_mem _ hf))

theorem SetFrequency_currentToken (r : TokenBucketRateLimiter) (f : Frequency) :
    (r.SetFrequency f).currentToken = r.currentToken ∧ (r.SetFrequency f).frequency = f := by
  unfold SetFrequency Stop
  by_cases hs : r.isStarted = true <;> simp [hs]

/-- Without a tick the admissions of a run are exactly what the counter lost. -/
theorem admissions_eq_sub (es : List TokenBucketEvent) (hnt : TokenBucketEvent.tick ∉ es) :
    ∀ r : TokenBucketRateLimiter, r.currentToken ≤ maxInt64 →
      (r.admissions es : Int) = r.currentToken - (r.run es).currentToken := by
  induction es with
  | nil => intro r _; simp [admissions, run_nil, TokenBucketProcess.admitted]
  | cons e es ih =>
    intro r hmax
    have hnt2 : TokenBucketEvent.tick ∉ es := fun h => hnt (List.mem_cons_of_mem _ h)
    have hne : e ≠ .tick := fun h => hnt (by simp [h])
    cases e with
    | allowRequest req =>
      rw [admissions_cons, run_cons, step_eq_allowRequest]
      rcases AllowRequest_currentToken r req hmax with ⟨ht, h0, h1⟩ | ⟨ht, h1⟩
      · have := ih hnt2 (r.AllowRequest req).state (by rw [h1]; omega)
        rw [h1] at this
        simp only [ht, if_true]
        push_cast
        omega
      · have := ih hnt2 r hmax
        simp only [ht, if_false, h1]
        push_cast
        omega
    | tick => exact absurd rfl hne
    | workerBegin =>
      rw [admissions_cons, run_cons, step_eq_workerBegin]
      have := ih hnt2 r.workerBegin.state (by rw [(workerBegin_currentToken r).1]; exact hmax)
      rw [(workerBegin_currentToken r).1] at this
      push_cast
      omega
    | stop =>
      rw [admissions_cons, run_cons, step_eq_stop]
      have := ih hnt2 r.Stop (by rw [(Stop_currentToken r).1]; exact hmax)
      rw [(Stop_currentToken r).1] at this
      push_cast
      omega
    | setFrequency f =>
      rw [admissions_cons, run_cons, step_eq_setFrequency]
      have := ih hnt2 (r.SetFrequency f) (by rw [(SetFrequency_currentToken r f).1]; exact hmax)
      rw [(SetFrequency_currentToken r f).1] at this
      push_cast
      omega

/-- The add of a call that loaded at most the present counter keeps the counter
non-negative and does not raise it. -/
theorem AllowRequest_add_currentToken (r : TokenBucketRateLimiter) (v : Int)
    (h0 : 0 ≤ r.currentToken) (hmax : r.currentToken ≤ maxInt64) (hv : v ≤ r.currentToken) :
    (r.AllowRequest_add v).1.frequency = r.frequency ∧
      0 ≤ (r.AllowRequest_add v).1.currentToken ∧
      (r.AllowRequest_add v).1.currentToken ≤ r.currentToken := by
  unfold maxInt64 at hmax
  by_cases hc : v > 0
  · have hw : wrap64 (r.currentToken + -1) = r.currentToken - 1 := by
      unfold wrap64
      omega
    have e : (r.AllowRequest_add v).1 = { r with currentToken := r.currentToken - 1 } := by
      simp [AllowRequest_add, hc, hw]
    rw [e]
    refine ⟨rfl, ?_, ?_⟩
    · show 0 ≤ r.currentToken - 1
      omega
    · show r.currentToken - 1 ≤ r.currentToken
      omega
  · have e : (r.AllowRequest_add v).1 = r := by simp [AllowRequest_add, hc]
    rw [e]
    exact ⟨rfl, h0, le_refl _⟩

/-- The add of a refill that loaded at least the present counter, with a positive `Unit` and
within `int64`, does not lower the counter. -/
theorem refill_add_currentToken (r : TokenBucketRateLimiter) (c u : Int)
    (h0 : 0 ≤ r.currentToken) (htc : r.currentToken ≤ c) (hc : c ≤ maxInt64)
    (hu : 0 < u ∧ isInt64 u) (hr : c > u → r.currentToken + u ≤ maxInt64) :
    (r.refill_add c u).frequency = r.frequency ∧
      r.currentToken ≤ (r.refill_add c u).currentToken ∧
      (r.refill_add c u).currentToken ≤ maxInt64 := by
  obtain ⟨hu0, hu1⟩ := hu
  unfold isInt64 at hu1
  unfold maxInt64 at hc hr ⊢
  by_cases hb : c > u
  · have := hr hb
    have hw : wrap64 (r.currentToken + u) = r.currentToken + u := by
      unfold wrap64
      omega
    have e : r.refill_add c u = { r with currentToken := r.currentToken + u } := by
      simp [refill_add, hb, hw]
    rw [e]
    refine ⟨rfl, ?_, ?_⟩
    · show r.currentToken ≤ r.currentToken + u
      omega
    · show r.currentToken + u ≤ 9223372036854775807
      omega
  · have hw1 : wrap64 (u - c) = u - c := by
      unfold wrap64
      omega
    have hw2 : wrap64 (r.currentToken + (u - c)) = r.currentToken + (u - c) := by
      unfold wrap64
      omega
    have e : r.refill_add c u = { r with currentToken := r.currentToken + (u - c) } := by
      simp [refill_add, hb, hw1, hw2]
    rw [e]
    refine ⟨rfl, ?_, ?_⟩
    · show r.currentToken ≤ r.currentToken + (u - c)
      omega
    · show r.currentToken + (u - c) ≤ 9223372036854775807
      omega

end TokenBucketRateLimiter

theorem RefillProgress.covers_mono (p : RefillProgress) (t t1 : Int) (h : t1 ≤ t)
    (hp : p.covers t) : p.covers t1 := by
  cases p with
  | idle => trivial
  | loadedToken c => exact ⟨le_trans h hp.1, hp.2⟩
  | loadedUnit c u => exact ⟨le_trans h hp.1, hp.2⟩

namespace TokenBucketProcess

theorem sound_intro (l : TokenBucketRateLimiter) (fl : List Int) (p : RefillProgress)
    (h0 : 0 ≤ l.currentToken) (hmax : l.currentToken ≤ maxInt64)
    (hu0 : 0 < l.frequency.Unit) (hu1 : isInt64 l.frequency.Unit) (hlen : fl.length ≤ 1)
    (hfl : ∀ v ∈ fl, v ≤ l.currentToken) (hp : p.covers l.currentToken) :
    Sound { limiter := l, inFlight := fl, refilling := p } :=
  ⟨h0, hmax, hu0, hu1, hlen, hfl, hp⟩

/-- With at most one caller in flight, the caller that adds leaves none in flight. -/
theorem eraseIdx_of_length_le_one (fl : List Int) (caller : Nat) (v : Int)
    (hlen : fl.length ≤ 1) (hg : fl[caller]? = some v) :
    fl.eraseIdx caller = [] ∧ v ∈ fl := by
  cases fl with
  | nil => simp at hg
  | cons x xs =>
    cases xs with
    | cons y ys => simp at hlen
    | nil =>
      cases caller with
      | zero => simp at hg; simp [hg]
      | succ k => simp at hg

/-- A call that changes only flag, launches and signals keeps `Sound`. -/
theorem sound_of_same_counter (s : TokenBucketProcess) (l : TokenBucketRateLimiter)
    (h : s.Sound) (hc : l.currentToken = s.limiter.currentToken)
    (hu0 : 0 < l.frequency.Unit) (hu1 : isInt64 l.frequency.Unit) :
    Sound { s with limiter := l } := by
  obtain ⟨h0, hmax, _, _, hlen, hfl, hre⟩ := h
  apply sound_intro
  · rw [hc]; exact h0
  · rw [hc]; exact hmax
  · exact hu0
  · exact hu1
  · exact hlen
  · rw [hc]; exact hfl
  · rw [hc]; exact hre

/-- One operation keeps `Sound`, when a load finds no caller in flight, a refill's add stays
within `int64` and a new descriptor has a positive `int64` `Unit`. -/
theorem apply_sound (s : TokenBucketProcess) (op : TokenBucketOp) (h : s.Sound)
    (hcall : ∀ req, op = .allowLoad req → s.inFlight = [])
    (hrange : ∀ c u, op = .tickAdd → s.refilling = .loadedUnit c u → c > u →
      s.limiter.currentToken + u ≤ maxInt64)
    (hf : ∀ g, op = .setFrequency g → 0 < g.Unit ∧ isInt64 g.Unit) :
    (s.apply op).Sound := by
  have hs := h
  obtain ⟨h0, hmax, hu0, hu1, hlen, hfl, hre⟩ := h
  cases op with
  | allowLoad req =>
    cases req with
    | tokenBucket =>
      have hnil := hcall _ rfl
      have happ : s.apply (.allowLoad .tokenBucket) =
          { s with inFlight := [s.limiter.currentToken] } := by
        simp [apply, hnil, TokenBucketRateLimiter.AllowRequest_load]
      rw [happ]
      exact sound_intro _ _ _ h0 hmax hu0 hu1 (by simp) (by simp) hre
    | leakyBucket Id => exact hs
    | other => exact hs
  | allowAdd caller =>
    cases hg : s.inFlight[caller]? with
    | none =>
      have happ : s.apply (.allowAdd caller) = s := by simp [apply, hg]
      rw [happ]
      exact hs
    | some v =>
      obtain ⟨he, hmem⟩ := eraseIdx_of_length_le_one s.inFlight caller v hlen hg
      have hv : v ≤ s.limiter.currentToken := hfl v hmem
      obtain ⟨a, b, c⟩ :=
        TokenBucketRateLimiter.AllowRequest_add_currentToken s.limiter v h0 hmax hv
      have happ : s.apply (.allowAdd caller) =
          { s with limiter := (s.limiter.AllowRequest_add v).1, inFlight := [] } := by
        simp [apply, hg, he]
      rw [happ]
      exact sound_intro _ _ _ b (le_trans c hmax) (by rw [a]; exact hu0)
        (by rw [a]; exact hu1) (by simp) (by simp)
        (RefillProgress.covers_mono _ _ _ c hre)
  | tickLoadToken =>
    cases hr : s.refilling with
    | idle =>
      by_cases hst : s.limiter.isStarted = true
      · have happ : s.apply .tickLoadToken =
            { s with refilling := .loadedToken s.limiter.currentToken } := by
          simp [apply, hr, hst]
        rw [happ]
        exact sound_intro _ _ _ h0 hmax hu0 hu1 hlen hfl ⟨le_refl _, hmax⟩
      · have happ : s.apply .tickLoadToken = s := by simp [apply, hr, hst]
        rw [happ]
        exact hs
    | loadedToken c1 =>
      have happ : s.apply .tickLoadToken = s := by simp [apply, hr]
      rw [happ]
      exact hs
    | loadedUnit c1 u1 =>
      have happ : s.apply .tickLoadToken = s := by simp [apply, hr]
      rw [happ]
      exact hs
  | tickLoadUnit =>
    cases hr : s.refilling with
    | idle =>
      have happ : s.apply .tickLoadUnit = s := by simp [apply, hr]
      rw [happ]
      exact hs
    | loadedToken c1 =>
      have happ : s.apply .tickLoadUnit =
          { s with refilling := .loadedUnit c1 s.limiter.frequency.Unit } := by
        simp [apply, hr]
      rw [hr] at hre
      rw [happ]
      exact sound_intro _ _ _ h0 hmax hu0 hu1 hlen hfl ⟨hre.1, hre.2, hu0, hu1⟩
    | loadedUnit c1 u1 =>
      have happ : s.apply .tickLoadUnit = s := by simp [apply, hr]
      rw [happ]
      exact hs
  | tickAdd =>
    cases hr : s.refilling with
    | idle =>
      have happ : s.apply .tickAdd = s := by simp [apply, hr]
      rw [happ]
      exact hs
    | loadedToken c1 =>
      have happ : s.apply .tickAdd = s := by simp [apply, hr]
      rw [happ]
      exact hs
    | loadedUnit c1 u1 =>
      have happ : s.apply .tickAdd =
          { s with limiter := s.limiter.refill_add c1 u1, refilling := .idle } := by
        simp [apply, hr]
      rw [hr] at hre
      obtain ⟨a, b, c⟩ := TokenBucketRateLimiter.refill_add_currentToken s.limiter c1 u1 h0
        hre.1 hre.2.1 hre.2.2 (hrange c1 u1 rfl hr)
      rw [happ]
      exact sound_intro _ _ _ (le_trans h0 b) c (by rw [a]; exact hu0) (by rw [a]; exact hu1)
        hlen (fun v hv => le_trans (hfl v hv) b) trivial
  | workerBegin =>
    obtain ⟨a, b⟩ := TokenBucketRateLimiter.workerBegin_currentToken s.limiter
    exact sound_of_same_counter s _ hs a (by rw [b]; exact hu0) (by rw [b]; exact hu1)
  | stop =>
    obtain ⟨a, b⟩ := TokenBucketRateLimiter.Stop_currentToken s.limiter
    exact sound_of_same_counter s _ hs a (by rw [b]; exact hu0) (by rw [b]; exact hu1)
  | setFrequency g =>
    obtain ⟨a, b⟩ := TokenBucketRateLimiter.SetFrequency_currentToken s.limiter g
    obtain ⟨g0, g1⟩ := hf g rfl
    exact sound_of_same_counter s _ hs a (by rw [b]; exact g0) (by rw [b]; exact g1)

theorem exec_sound (ops : List TokenBucketOp) :
    ∀ s : TokenBucketProcess, s.Sound →
      (∀ g, TokenBucketOp.setFrequency g ∈ ops → 0 < g.Unit ∧ isInt64 g.Unit) →
      s.callsApart ops → s.refillsInRange ops → (s.exec ops).Sound := by
  induction ops with
  | nil => intro s h _ _ _; exact h
  | cons op ops ih =>
    intro s h hf hc hr
    obtain ⟨hc1, hc2⟩ := hc
    obtain ⟨hr1, hr2⟩ := hr
    have h1 := apply_sound s op h hc1 hr1 (fun g hg => hf g (by simp [hg]))
    exact ih (s.apply op) h1 (fun g hg => hf g (List.mem_cons_of_mem _ hg)) hc2 hr2

end TokenBucketProcess

/-! ## Token bucket: every interleaving with a fixed descriptor -/

theorem RefillProgress.within_mono (p : RefillProgress) (t t1 U : Int) (h : t1 ≤ t)
    (hp : p.within t U) : p.within t1 U := by
  cases p with
  | idle => trivial
  | loadedToken c => exact ⟨le_trans h hp.1, hp.2⟩
  | loadedUnit c u => exact ⟨le_trans h hp.1, hp.2⟩

namespace TokenBucketProcess

/-- The caller that adds leaves the callers in flight: one fewer, and one pending decrement
fewer when the value it loaded was positive. -/
theorem positives_eraseIdx (fl : List Int) :
    ∀ (caller : Nat) (v : Int), fl[caller]? = some v →
      (fl.eraseIdx caller).length + 1 = fl.length ∧
      positives (fl.eraseIdx caller) + (if 0 < v then 1 else 0) = positives fl := by
  induction fl with
  | nil => intro caller v hg; simp at hg
  | cons x xs ih =>
    intro caller v hg
    cases caller with
    | zero =>
      simp at hg
      subst hg
      by_cases hx : 0 < x <;> simp [positives, List.countP_cons, hx]
    | succ k =>
      simp at hg
      obtain ⟨a, b⟩ := ih k v hg
      unfold positives at b ⊢
      by_cases hx : 0 < x <;>
        simp only [List.eraseIdx_cons_succ, List.length_cons, List.countP_cons, hx,
          decide_True, decide_False, if_true, if_false] <;> omega

theorem bounded_intro (U : Int) (N : Nat) (l : TokenBucketRateLimiter) (fl : List Int)
    (p : RefillProgress) (hu : l.frequency.Unit = U) (hle : l.currentToken ≤ U)
    (hpos : (positives fl : Int) ≤ l.currentToken + N) (hlen : fl.length ≤ N)
    (hp : p.within l.currentToken U) :
    Bounded U N { limiter := l, inFlight := fl, refilling := p } :=
  ⟨hu, hle, hpos, hlen, hp⟩

theorem bounded_of_same_counter (U : Int) (N : Nat) (s : TokenBucketProcess)
    (l : TokenBucketRateLimiter) (h : s.Bounded U N)
    (hc : l.currentToken = s.limiter.currentToken)
    (hf : l.frequency = s.limiter.frequency) : Bounded U N { s with limiter := l } := by
  obtain ⟨hu, hle, hpos, hlen, hre⟩ := h
  apply bounded_intro
  · rw [hf]; exact hu
  · rw [hc]; exact hle
  · rw [hc]; exact hpos
  · exact hlen
  · rw [hc]; exact hre

/-- One operation other than `SetFrequency` keeps `Bounded`, when a load finds fewer than `N`
callers in flight. -/
theorem apply_bounded (U : Int) (N : Nat) (s : TokenBucketProcess) (op : TokenBucketOp)
    (hU : 0 < U ∧ isInt64 U) (hN : (N : Int) ≤ 4611686018427387904) (h : s.Bounded U N)
    (hfew : ∀ req, op = .allowLoad req → s.inFlight.length < N)
    (hno : ∀ f, op ≠ .setFrequency f) : (s.apply op).Bounded U N := by
  have hs := h
  obtain ⟨hu, hle, hpos, hlen, hre⟩ := h
  obtain ⟨hU0, hU1⟩ := hU
  unfold isInt64 at hU1
  have hPL : positives s.inFlight ≤ s.inFlight.length := List.countP_le_length _
  cases op with
  | allowLoad req =>
    cases req with
    | tokenBucket =>
      have hlt := hfew _ rfl
      have happ : s.apply (.allowLoad .tokenBucket) =
          { s with inFlight := s.inFlight ++ [s.limiter.currentToken] } := by
        simp [apply, TokenBucketRateLimiter.AllowRequest_load]
      rw [happ]
      apply bounded_intro _ _ _ _ _ hu hle _ _ hre
      · by_cases hc : 0 < s.limiter.currentToken
        · have : positives (s.inFlight ++ [s.limiter.currentToken])
              = positives s.inFlight + 1 := by
            simp [positives, List.countP_append, List.countP_cons, hc]
          rw [this]
          push_cast
          omega
        · have : positives (s.inFlight ++ [s.limiter.currentToken])
              = positives s.inFlight := by
            simp [positives, List.countP_append, List.countP_cons, hc]
          rw [this]
          exact hpos
      · simp only [List.length_append, List.length_singleton]
        omega
    | leakyBucket Id => exact hs
    | other => exact hs
  | allowAdd caller =>
    cases hg : s.inFlight[caller]? with
    | none =>
      have happ : s.apply (.allowAdd caller) = s := by simp [apply, hg]
      rw [happ]
      exact hs
    | some v =>
      obtain ⟨hl, hp⟩ := positives_eraseIdx s.inFlight caller v hg
      by_cases hv : v > 0
      · have hv2 : 0 < v := hv
        simp only [hv2, if_true] at hp
        have hw : wrap64 (s.limiter.currentToken + -1) = s.limiter.currentToken - 1 := by
          unfold wrap64
          omega
        have happ : s.apply (.allowAdd caller) =
            { s with limiter := { s.limiter with currentToken := s.limiter.currentToken - 1 },
                     inFlight := s.inFlight.eraseIdx caller } := by
          simp [apply, hg, TokenBucketRateLimiter.AllowRequest_add, hv, hw]
        rw [happ]
        refine bounded_intro U N { s.limiter with currentToken := s.limiter.currentToken - 1 }
          _ _ hu ?_ ?_ ?_ ?_
        · show s.limiter.currentToken - 1 ≤ U
          omega
        · show (positives (s.inFlight.eraseIdx caller) : Int)
            ≤ s.limiter.currentToken - 1 + N
          omega
        · omega
        · exact RefillProgress.within_mono _ _ _ _
            (show s.limiter.currentToken - 1 ≤ s.limiter.currentToken by omega) hre
      · have hv2 : ¬ 0 < v := hv
        simp only [hv2, if_false] at hp
        have happ : s.apply (.allowAdd caller) =
            { s with inFlight := s.inFlight.eraseIdx caller } := by
          simp [apply, hg, TokenBucketRateLimiter.AllowRequest_add, hv]
        rw [happ]
        apply bounded_intro _ _ _ _ _ hu hle _ _ hre
        · omega
        · omega
  | tickLoadToken =>
    cases hr : s.refilling with
    | idle =>
      by_cases hst : s.limiter.isStarted = true
      · have happ : s.apply .tickLoadToken =
            { s with refilling := .loadedToken s.limiter.currentToken } := by
          simp [apply, hr, hst]
        rw [happ]
        exact bounded_intro _ _ _ _ _ hu hle hpos hlen ⟨le_refl _, hle⟩
      · have happ : s.apply .tickLoadToken = s := by simp [apply, hr, hst]
        rw [happ]
        exact hs
    | loadedToken c1 =>
      have happ : s.apply .tickLoadToken = s := by simp [apply, hr]
      rw [happ]
      exact hs
    | loadedUnit c1 u1 =>
      have happ : s.apply .tickLoadToken = s := by simp [apply, hr]
      rw [happ]
      exact hs
  | tickLoadUnit =>
    cases hr : s.refilling with
    | idle =>
      have happ : s.apply .tickLoadUnit = s := by simp [apply, hr]
      rw [happ]
      exact hs
    | loadedToken c1 =>
      have happ : s.apply .tickLoadUnit =
          { s with refilling := .loadedUnit c1 s.limiter.frequency.Unit } := by
        simp [apply, hr]
      rw [hr] at hre
      rw [happ]
      exact bounded_intro _ _ _ _ _ hu hle hpos hlen ⟨hre.1, hre.2, hu⟩
    | loadedUnit c1 u1 =>
      have happ : s.apply .tickLoadUnit = s := by simp [apply, hr]
      rw [happ]
      exact hs
  | tickAdd =>
    cases hr : s.refilling with
    | idle =>
      have happ : s.apply .tickAdd = s := by simp [apply, hr]
      rw [happ]
      exact hs
    | loadedToken c1 =>
      have happ : s.apply .tickAdd = s := by simp [apply, hr]
      rw [happ]
      exact hs
    | loadedUnit c1 u1 =>
      rw [hr] at hre
      obtain ⟨hc1, hc2, hc3⟩ := hre
      subst hc3
      have hb : ¬ c1 > u1 := by omega
      have hw : wrap64 (s.limiter.currentToken + wrap64 (u1 - c1))
          = s.limiter.currentToken + (u1 - c1) := by
        unfold wrap64
        omega
      have happ : s.apply .tickAdd =
          { s with limiter := { s.limiter with
                     currentToken := s.limiter.currentToken + (u1 - c1) },
                   refilling := .idle } := by
        simp [apply, hr, TokenBucketRateLimiter.refill_add, hb, hw]
      rw [happ]
      refine bounded_intro u1 N
        { s.limiter with currentToken := s.limiter.currentToken + (u1 - c1) } _ _ hu ?_ ?_
        hlen trivial
      · show s.limiter.currentToken + (u1 - c1) ≤ u1
        omega
      · show (positives s.inFlight : Int) ≤ s.limiter.currentToken + (u1 - c1) + N
        omega
  | workerBegin =>
    obtain ⟨a, b⟩ := TokenBucketRateLimiter.workerBegin_currentToken s.limiter
    exact bounded_of_same_counter U N s _ hs a b
  | stop =>
    obtain ⟨a, b⟩ := TokenBucketRateLimiter.Stop_currentToken s.limiter
    exact bounded_of_same_counter U N s _ hs a b
  | setFrequency g => exact absurd rfl (hno g)

theorem exec_bounded (U : Int) (N : Nat) (hU : 0 < U ∧ isInt64 U)
    (hN : (N : Int) ≤ 4611686018427387904) (ops : List TokenBucketOp) :
    ∀ s : TokenBucketProcess, s.Bounded U N →
      (∀ f, TokenBucketOp.setFrequency f ∉ ops) → s.fewerInFlight N ops →
      (s.exec ops).Bounded U N := by
  induction ops with
  | nil => intro s h _ _; exact h
  | cons op ops ih =>
    intro s h hno hfew
    obtain ⟨hf1, hf2⟩ := hfew
    have h1 := apply_bounded U N s op hU hN h hf1 (fun f hf => hno f (by simp [hf]))
    exact ih (s.apply op) h1 (fun f hf => hno f (List.mem_cons_of_mem _ hf)) hf2

end TokenBucketProcess

/-! ## Token bucket: the claims -/

/-- C1: for every `int64` counter value `c` and a request of the token bucket's own shape,
`AllowRequest` returns, it returns `true` exactly when `c > 0`, after `true` the counter is
`c - 1` (and nothing else changed), after `false` the limiter is unchanged. -/
theorem C1_AllowRequest_iff_positive (r : TokenBucketRateLimiter) (h : isInt64 r.currentToken) :
    ∃ r1 b, r.AllowRequest .tokenBucket = .ok r1 b ∧ (b = true ↔ r.currentToken > 0) ∧
      (b = true → r1.CurrentToken = r.currentToken - 1 ∧
        r1 = { r with currentToken := r.currentToken - 1 }) ∧
      (b = false → r1 = r ∧ r1.CurrentToken = r.currentToken) := by
  unfold isInt64 at h
  by_cases hc : r.currentToken > 0
  · have hw : wrap64 (r.currentToken + -1) = r.currentToken - 1 := by
      unfold wrap64
      omega
    refine ⟨{ r with currentToken := r.currentToken - 1 }, true, ?_, ?_, ?_, ?_⟩
    · simp [TokenBucketRateLimiter.AllowRequest, hc, hw]
    · simp [hc]
    · intro _; simp [TokenBucketRateLimiter.CurrentToken]
    · intro hb; cases hb
  · refine ⟨r, false, ?_, ?_, ?_, ?_⟩
    · simp [TokenBucketRateLimiter.AllowRequest, hc]
    · simp [hc]
    · intro hb; cases hb
    · intro _; exact ⟨rfl, rfl⟩

/-- C1 at a bucket holding three tokens. -/
theorem C1_AllowRequest_iff_positive_witness :
    ∃ r1 b, threeTokens.AllowRequest .tokenBucket = .ok r1 b ∧
      (b = true ↔ threeTokens.currentToken > 0) ∧
      (b = true → r1.CurrentToken = threeTokens.currentToken - 1 ∧
        r1 = { threeTokens with currentToken := threeTokens.currentToken - 1 }) ∧
      (b = false → r1 = threeTokens ∧ r1.CurrentToken = threeTokens.currentToken) :=
  C1_AllowRequest_iff_positive threeTokens (by decide)

/-- C2 fails as stated: with the counter at the largest `int64` and `Unit = 1` the refill takes
the `cur > cap` branch and the counter after the tick is the smallest `int64`, not
`cur + cap`. -/
theorem C2_refill_overflow :
    isInt64 brimfulBucket.currentToken ∧ isInt64 brimfulBucket.frequency.Unit ∧
      brimfulBucket.currentToken > brimfulBucket.frequency.Unit ∧
      brimfulBucket.tick.CurrentToken = minInt64 ∧
      brimfulBucket.tick.CurrentToken ≠
        brimfulBucket.currentToken + brimfulBucket.frequency.Unit := by
  decide

/-- C2, amended: at a refill tick with counter `cur` and an `int64` `Unit` `cap`, if `cur > cap`
and `cur + cap` is within the `int64` range the counter after the tick is `cur + cap`; if not
`cur > cap` the counter after the tick is exactly `cap`. -/
theorem C2_refill (r : TokenBucketRateLimiter) (hcap : isInt64 r.frequency.Unit)
    (hs : r.isStarted = true) :
    (r.currentToken > r.frequency.Unit → isInt64 (r.currentToken + r.frequency.Unit) →
        r.tick.CurrentToken = r.currentToken + r.frequency.Unit) ∧
      (¬ r.currentToken > r.frequency.Unit → r.tick.CurrentToken = r.frequency.Unit) := by
  have ht : r.tick = r.refill := by simp [TokenBucketRateLimiter.tick, hs]
  rw [ht]
  refine ⟨?_, ?_⟩
  · intro hc hin
    simp only [TokenBucketRateLimiter.CurrentToken]
    rw [TokenBucketRateLimiter.refill_gt r hc, wrap64_of_isInt64 _ hin]
  · intro hc
    exact TokenBucketRateLimiter.refill_le r hcap (by omega)

/-- C2, amended, at a bucket of `Unit = 2` holding five tokens. -/
theorem C2_refill_witness :
    (overfullBucket.currentToken > overfullBucket.frequency.Unit →
        isInt64 (overfullBucket.currentToken + overfullBucket.frequency.Unit) →
        overfullBucket.tick.CurrentToken
          = overfullBucket.currentToken + overfullBucket.frequency.Unit) ∧
      (¬ overfullBucket.currentToken > overfullBucket.frequency.Unit →
        overfullBucket.tick.CurrentToken = overfullBucket.frequency.Unit) :=
  C2_refill overfullBucket (by decide) (by decide)

/-- C3 fails as stated, in two ways. Overflow: construct with `Unit` the largest `int64`, let
the worker begin and refill once, call `SetFrequency` with `Unit = 1`, let the new worker begin
and refill once; every descriptor has `Unit > 0`, and `CurrentToken()` is the smallest `int64`.
Overlap: construct with `Unit = 1`, let the worker begin and refill once, then two `AllowRequest`
calls both load the counter 1 before either adds; both add `-1` and `CurrentToken()` is `-1`. -/
theorem C3_negative_counter :
    0 < maxInt64 ∧ isInt64 maxInt64 ∧
      (∀ f, TokenBucketEvent.setFrequency f ∈ shrinkFromMax → 0 < f.Unit ∧ isInt64 f.Unit) ∧
      ((NewTokenBucketRateLimiter { Unit := maxInt64, Interval := 1000000 }).run
        shrinkFromMax).CurrentToken = minInt64 ∧
      ¬ 0 ≤ ((NewTokenBucketRateLimiter { Unit := maxInt64, Interval := 1000000 }).run
        shrinkFromMax).CurrentToken ∧
      ((NewTokenBucketRateLimiter { Unit := 1, Interval := 1000000 }).atRest.exec
        (firstRefill ++ twoOverlapping)).limiter.CurrentToken = -1 ∧
      ¬ 0 ≤ ((NewTokenBucketRateLimiter { Unit := 1, Interval := 1000000 }).atRest.exec
        (firstRefill ++ twoOverlapping)).limiter.CurrentToken := by
  refine ⟨by decide, by decide, ?_, by decide, by decide, by decide, by decide⟩
  intro f hf
  simp only [shrinkFromMax, List.mem_cons, List.mem_singleton, reduceCtorEq, false_or,
    TokenBucketEvent.setFrequency.injEq, or_false, List.not_mem_nil] at hf
  subst hf
  decide

/-- C3, amended: starting from `NewTokenBucketRateLimiter` with an `int64` `Unit > 0`, after
every finite sequence of atomic operations of `AllowRequest` calls, refill ticks, worker
beginnings, `Stop` calls and `SetFrequency` calls whose descriptors have an `int64` `Unit > 0`,
in any interleaving in which no two `AllowRequest` calls overlap and no refill's addition
leaves the `int64` range, `CurrentToken()` is `>= 0`. Refills may overlap calls. -/
theorem C3_CurrentToken_nonneg (f : Frequency) (ops : List TokenBucketOp)
    (hf : 0 < f.Unit ∧ isInt64 f.Unit)
    (hes : ∀ g, TokenBucketOp.setFrequency g ∈ ops → 0 < g.Unit ∧ isInt64 g.Unit)
    (hcalls : (NewTokenBucketRateLimiter f).atRest.callsApart ops)
    (hin : (NewTokenBucketRateLimiter f).atRest.refillsInRange ops) :
    0 ≤ ((NewTokenBucketRateLimiter f).atRest.exec ops).limiter.CurrentToken := by
  have h0 : (NewTokenBucketRateLimiter f).atRest.Sound := by
    refine ⟨le_refl _, ?_, hf.1, hf.2, ?_, ?_, trivial⟩
    · simp [NewTokenBucketRateLimiter, TokenBucketRateLimiter.atRest, maxInt64]
    · simp [TokenBucketRateLimiter.atRest]
    · simp [TokenBucketRateLimiter.atRest]
  exact (TokenBucketProcess.exec_sound ops _ h0 hes hcalls hin).1

/-- C3, amended, at `Unit = 5` and an interleaving in which a refill overlaps a call and a
`SetFrequency` to `Unit = 2`, and so adds on the `cur > cap` branch. -/
theorem C3_CurrentToken_nonneg_witness :
    0 ≤ ((NewTokenBucketRateLimiter { Unit := 5, Interval := 1000000 }).atRest.exec
      interleaved).limiter.CurrentToken :=
  C3_CurrentToken_nonneg { Unit := 5, Interval := 1000000 } interleaved (by decide)
    (by
      intro g hg
      simp only [interleaved, List.mem_cons, List.mem_singleton, reduceCtorEq, false_or,
        TokenBucketOp.setFrequency.injEq, or_false, List.not_mem_nil] at hg
      subst hg
      decide)
    (by
      simp [interleaved, TokenBucketProcess.callsApart, TokenBucketProcess.apply,
        TokenBucketRateLimiter.atRest, NewTokenBucketRateLimiter,
        TokenBucketRateLimiter.workerBegin, TokenBucketRateLimiter.start,
        TokenBucketRateLimiter.refill_add, TokenBucketRateLimiter.AllowRequest_load,
        TokenBucketRateLimiter.AllowRequest_add, TokenBucketRateLimiter.SetFrequency,
        TokenBucketRateLimiter.Stop, Outcome.state, wrap64])
    (by
      simp [interleaved, TokenBucketProcess.refillsInRange, TokenBucketProcess.apply,
        TokenBucketRateLimiter.atRest, NewTokenBucketRateLimiter,
        TokenBucketRateLimiter.workerBegin, TokenBucketRateLimiter.start,
        TokenBucketRateLimiter.refill_add, TokenBucketRateLimiter.AllowRequest_load,
        TokenBucketRateLimiter.AllowRequest_add, TokenBucketRateLimiter.SetFrequency,
        TokenBucketRateLimiter.Stop, Outcome.state, wrap64, maxInt64])

/-- C4, the code at two overlapping calls. Construct with `Unit = 1` and let the worker begin
and refill once: the counter is 1. Two `AllowRequest` calls then both load the counter before
either adds, with no refill operation in between: both return `true`, which is more than
`Unit`, and the counter ends at `-1`. -/
theorem C4_overlapping_calls_exceed_budget :
    ((NewTokenBucketRateLimiter { Unit := 1, Interval := 1000000 }).atRest.exec
        firstRefill).limiter.frequency.Unit = 1 ∧
      ((NewTokenBucketRateLimiter { Unit := 1, Interval := 1000000 }).atRest.exec
        firstRefill).limiter.CurrentToken = 1 ∧
      TokenBucketOp.tickLoadToken ∉ twoOverlapping ∧
      TokenBucketOp.tickLoadUnit ∉ twoOverlapping ∧ TokenBucketOp.tickAdd ∉ twoOverlapping ∧
      ((NewTokenBucketRateLimiter { Unit := 1, Interval := 1000000 }).atRest.exec
        firstRefill).admitted twoOverlapping = 2 ∧
      (((NewTokenBucketRateLimiter { Unit := 1, Interval := 1000000 }).atRest.exec
        firstRefill).exec twoOverlapping).limiter.CurrentToken = -1 := by
  decide

/-- C10 fails as stated: on a limiter constructed with an `int64` `Unit = U > 0` and never
reconfigured, no sequence of calls, worker beginnings and refill ticks reaches a state whose
counter is above `U`; so no refill finds `cur > cap` and `CurrentToken()` never ends above
`U`. -/
theorem C10_never_above_unit :
    ¬ ∃ (U interval : Int) (es : List TokenBucketEvent), 0 < U ∧ isInt64 U ∧
        (∀ f, TokenBucketEvent.setFrequency f ∉ es) ∧
        ((NewTokenBucketRateLimiter { Unit := U, Interval := interval }).run es).CurrentToken
          > ((NewTokenBucketRateLimiter { Unit := U, Interval := interval }).run
              es).frequency.Unit := by
  rintro ⟨U, interval, es, hpos, hU, hno, hgt⟩
  obtain ⟨a, _, c⟩ := TokenBucketRateLimiter.run_within_unit U es hU hpos
    (NewTokenBucketRateLimiter { Unit := U, Interval := interval }) rfl
    (by simp [NewTokenBucketRateLimiter]) (by simp [NewTokenBucketRateLimiter]; omega) hno
  simp only [TokenBucketRateLimiter.CurrentToken] at hgt
  omega

/-- C10, amended: for some sequence of refill ticks and calls that includes a `SetFrequency`
lowering `Unit`, on a limiter constructed with `Unit = U > 0`, a refill tick takes the
`cur > cap` branch and `CurrentToken()` ends above `U`. Here `U = 5`: the first tick fills the
bucket to 5, `SetFrequency` lowers `Unit` to 2, the next tick finds `5 > 2` and adds 2. -/
theorem C10_above_unit_after_SetFrequency :
    ∃ (U : Int) (pre : List TokenBucketEvent), 0 < U ∧
      (∃ f, TokenBucketEvent.setFrequency f ∈ pre ∧ f.Unit < U) ∧
      ((NewTokenBucketRateLimiter { Unit := U, Interval := 1000000 }).run pre).isStarted = true ∧
      ((NewTokenBucketRateLimiter { Unit := U, Interval := 1000000 }).run pre).currentToken
        > ((NewTokenBucketRateLimiter { Unit := U, Interval := 1000000 }).run pre).frequency.Unit ∧
      ((NewTokenBucketRateLimiter { Unit := U, Interval := 1000000 }).run
        (pre ++ [.tick])).CurrentToken = 7 ∧
      ((NewTokenBucketRateLimiter { Unit := U, Interval := 1000000 }).run
        (pre ++ [.tick])).CurrentToken > U := by
  refine ⟨5, [.workerBegin, .tick, .setFrequency { Unit := 2, Interval := 1000000 },
    .workerBegin], by decide, ⟨{ Unit := 2, Interval := 1000000 }, by simp, by decide⟩,
    by decide, by decide, by decide, by decide⟩

/-! ## Leaky bucket: single steps -/

namespace LeakyBucketRateLimiter

theorem Stop_isStarted (r : LeakyBucketRateLimiter) : r.Stop.isStarted = false := by
  unfold Stop
  by_cases hs : r.isStarted = true <;> simp [hs]

theorem Stop_frequency (r : LeakyBucketRateLimiter) :
    r.Stop.frequency = r.frequency ∧ r.Stop.pendingStarts = r.pendingStarts := by
  unfold Stop
  by_cases hs : r.isStarted = true <;> simp [hs]

/-- A full queue rejects and leaves the limiter as it is. -/
theorem AllowRequest_full (r : LeakyBucketRateLimiter) (Id : Int)
    (h : r.q.capacity ≤ (r.q.items.length : Int)) :
    r.AllowRequest (.leakyBucket Id) = .ok r false := by
  have hn : ¬ (r.q.items.length : Int) < r.q.capacity := by omega
  simp [AllowRequest, FixedFIFO.Enqueue, hn]

/-- A queue with room accepts: the request goes to the back, the caller is suspended. -/
theorem AllowRequest_room (r : LeakyBucketRateLimiter) (Id : Int)
    (h : (r.q.items.length : Int) < r.q.capacity) :
    r.AllowRequest (.leakyBucket Id) =
      .ok { r with q := { r.q with items := r.q.items ++ [.leakyBucket Id] },
                   waiting := r.waiting ++ [.leakyBucket Id] } true := by
  simp [AllowRequest, FixedFIFO.Enqueue, h]

/-- Arrivals with no worker step in between, at a queue with room for `k` more: the first `k`
of them are accepted, in order, and the rest are rejected. -/
theorem arrive_spec (ids : List Int) :
    ∀ (k : Nat) (r : LeakyBucketRateLimiter), (r.q.items.length : Int) + k = r.q.capacity →
      r.arrive (ids.map .leakyBucket) =
        ({ r with
            q := { r.q with items := r.q.items ++ (ids.take k).map .leakyBucket },
            waiting := r.waiting ++ (ids.take k).map .leakyBucket },
          (List.range ids.length).map (fun i => some (decide (i < k)))) := by
  induction ids with
  | nil => intro k r _; simp [arrive]
  | cons Id ids ih =>
    intro k r hr
    simp only [List.map_cons, arrive, List.length_cons]
    rw [List.range_succ_eq_map]
    cases k with
    | zero =>
      rw [AllowRequest_full r Id (by omega)]
      simp only [Outcome.state, Outcome.result]
      rw [ih 0 r hr]
      simp [Function.comp_def]
    | succ k =>
      rw [AllowRequest_room r Id (by omega)]
      simp only [Outcome.state, Outcome.result]
      rw [ih k _ (by simp; omega)]
      simp [Function.comp_def]

/-- Among the first `n` positions, those below `c` are `min n c` many. -/
theorem count_below (c n : Nat) :
    ((List.range n).map (fun i => some (decide (i < c)))).count (some true) = min n c ∧
      ((List.range n).map (fun i => some (decide (i < c)))).count (some false)
        = n - min n c := by
  induction n with
  | zero => simp
  | succ n ih =>
    obtain ⟨h1, h2⟩ := ih
    rw [List.range_succ, List.map_append, List.count_append, List.count_append, h1, h2]
    by_cases hn : n < c
    · simp [hn]
      omega
    · simp [hn]
      omega

end LeakyBucketRateLimiter

/-! ## Leaky bucket: the claims -/

/-- C5: for every `Frequency` with `Unit != 1` and every capacity (and whatever the scheduler
does), `NewLeakyBucketRateLimiter` panics, and the limiter it was building is not started, has
no launched `start()` and got no stop signal; and `SetFrequency` with such a descriptor panics
on every limiter, leaving the descriptor as it was and launching no `start()`. -/
theorem C5_unit_not_one_panics (f : Frequency) (capacity : Int) (early : Bool)
    (h : f.Unit ≠ 1) :
    (∃ s, NewLeakyBucketRateLimiter f capacity early = .panic s ∧ s.isStarted = false ∧
        s.pendingStarts = 0 ∧ s.stopSignals = 0) ∧
      (∀ r : LeakyBucketRateLimiter, ∃ s, r.SetFrequency f early = .panic s ∧
        s.frequency = r.frequency ∧ s.pendingStarts = r.pendingStarts ∧
        s.isStarted = false) := by
  constructor
  · simp [NewLeakyBucketRateLimiter, LeakyBucketRateLimiter.SetFrequency, h,
      LeakyBucketRateLimiter.Stop]
  · intro r
    refine ⟨r.Stop, ?_, (LeakyBucketRateLimiter.Stop_frequency r).1,
      (LeakyBucketRateLimiter.Stop_frequency r).2, LeakyBucketRateLimiter.Stop_isStarted r⟩
    simp [LeakyBucketRateLimiter.SetFrequency, h]

/-- C5 at `Unit = 100`, capacity 2000. -/
theorem C5_unit_not_one_panics_witness :
    (∃ s, NewLeakyBucketRateLimiter { Unit := 100, Interval := 1000000000 } 2000 false
          = .panic s ∧ s.isStarted = false ∧ s.pendingStarts = 0 ∧ s.stopSignals = 0) ∧
      (∀ r : LeakyBucketRateLimiter, ∃ s,
        r.SetFrequency { Unit := 100, Interval := 1000000000 } false = .panic s ∧
        s.frequency = r.frequency ∧ s.pendingStarts = r.pendingStarts ∧
        s.isStarted = false) :=
  C5_unit_not_one_panics { Unit := 100, Interval := 1000000000 } 2000 false (by decide)

/-- C6: at a limiter whose queue is empty and has capacity `C >= 0`, when `n` requests arrive
with no worker step in between, call `i` (from 0) is accepted exactly when `i < C`; so
`min n C` are accepted and `n - min n C` return `false`; the queue then holds the first
`min n C` requests in order; the calls after the first `C` leave the limiter unchanged; the
queue length never exceeds `C`; and with `n = C + 1` exactly `C` are accepted and one is
rejected. -/
theorem C6_capacity (r : LeakyBucketRateLimiter) (ids : List Int) (hq : r.q.items = [])
    (hC : 0 ≤ r.q.capacity) :
    (r.arrive (ids.map .leakyBucket)).2
        = (List.range ids.length).map (fun i => some (decide (i < r.q.capacity.toNat))) ∧
      (r.arrive (ids.map .leakyBucket)).2.count (some true) = min ids.length r.q.capacity.toNat ∧
      (r.arrive (ids.map .leakyBucket)).2.count (some false)
        = ids.length - min ids.length r.q.capacity.toNat ∧
      (r.arrive (ids.map .leakyBucket)).1.q.items
        = (ids.take r.q.capacity.toNat).map .leakyBucket ∧
      (∀ k, r.q.capacity.toNat ≤ k →
        (r.arrive ((ids.take k).map .leakyBucket)).1
          = (r.arrive ((ids.take r.q.capacity.toNat).map .leakyBucket)).1) ∧
      (∀ k, ((r.arrive ((ids.take k).map .leakyBucket)).1.q.items.length : Int)
        ≤ r.q.capacity) ∧
      (ids.length = r.q.capacity.toNat + 1 →
        (r.arrive (ids.map .leakyBucket)).2.count (some true) = r.q.capacity.toNat ∧
        (r.arrive (ids.map .leakyBucket)).2.count (some false) = 1) := by
  have hk : (r.q.items.length : Int) + (r.q.capacity.toNat : Nat) = r.q.capacity := by
    rw [hq]
    simp only [List.length_nil, Nat.cast_zero, zero_add]
    omega
  have key := fun l : List Int => LeakyBucketRateLimiter.arrive_spec l r.q.capacity.toNat r hk
  have hc := LeakyBucketRateLimiter.count_below r.q.capacity.toNat ids.length
  refine ⟨?_, ?_, ?_, ?_, ?_, ?_, ?_⟩
  · rw [key ids]
  · rw [key ids]; exact hc.1
  · rw [key ids]; exact hc.2
  · rw [key ids]; simp [hq]
  · intro k hle
    rw [key, key, List.take_take, List.take_take]
    simp [hle]
  · intro k
    rw [key, List.take_take]
    simp only [hq, List.nil_append, List.length_map, List.length_take]
    omega
  · intro hn
    rw [key ids]
    refine ⟨?_, ?_⟩
    · rw [hc.1]; omega
    · rw [hc.2]; omega

/-- C6 at the limiter `NewLeakyBucketRateLimiter` leaves with capacity 2, and three arrivals. -/
theorem C6_capacity_witness :
    (freshLeaky.arrive ([1, 2, 3].map .leakyBucket)).2
        = (List.range [1, 2, 3].length).map
            (fun i => some (decide (i < freshLeaky.q.capacity.toNat))) ∧
      (freshLeaky.arrive ([1, 2, 3].map .leakyBucket)).2.count (some true)
        = min [1, 2, 3].length freshLeaky.q.capacity.toNat ∧
      (freshLeaky.arrive ([1, 2, 3].map .leakyBucket)).2.count (some false)
        = [1, 2, 3].length - min [1, 2, 3].length freshLeaky.q.capacity.toNat ∧
      (freshLeaky.arrive ([1, 2, 3].map .leakyBucket)).1.q.items
        = (([1, 2, 3] : List Int).take freshLeaky.q.capacity.toNat).map .leakyBucket ∧
      (∀ k, freshLeaky.q.capacity.toNat ≤ k →
        (freshLeaky.arrive ((([1, 2, 3] : List Int).take k).map .leakyBucket)).1
          = (freshLeaky.arrive
              ((([1, 2, 3] : List Int).take freshLeaky.q.capacity.toNat).map .leakyBucket)).1) ∧
      (∀ k, ((freshLeaky.arrive
          ((([1, 2, 3] : List Int).take k).map .leakyBucket)).1.q.items.length : Int)
        ≤ freshLeaky.q.capacity) ∧
      (([1, 2, 3] : List Int).length = freshLeaky.q.capacity.toNat + 1 →
        (freshLeaky.arrive ([1, 2, 3].map .leakyBucket)).2.count (some true)
          = freshLeaky.q.capacity.toNat ∧
        (freshLeaky.arrive ([1, 2, 3].map .leakyBucket)).2.count (some false) = 1) :=
  C6_capacity freshLeaky [1, 2, 3] (by decide) (by decide)

/-- C7, the code at two runs. In `overtaking` requests 1 and 2 are accepted in this order and
both callers are suspended on the one channel `allowedRequestChan`; the tick dequeues request 1,
the oldest, and the caller of request 2 receives the value: the `AllowRequest` call of request 2
returns `true` while the caller of request 1 stays suspended and request 2 is still queued. In
`staleCaller` the receivers are served oldest first, and the tick that dequeues request 2
releases the caller of request 1, whose request `SetFrequency` had dropped. A tick always
dequeues the head of the queue. -/
theorem C7_release_not_tied_to_request :
    (freshLeaky.run overtaking).handoffs = [(.leakyBucket 1, .leakyBucket 2)] ∧
      (freshLeaky.run overtaking).waiting = [.leakyBucket 1] ∧
      (freshLeaky.run overtaking).q.items = [.leakyBucket 2] ∧
      (freshLeaky.run staleCaller).handoffs = [(.leakyBucket 2, .leakyBucket 1)] ∧
      (freshLeaky.run staleCaller).waiting = [.leakyBucket 2] ∧
      (freshLeaky.run staleCaller).q.items = [] ∧
      (∀ (r : LeakyBucketRateLimiter) (pick : Nat), r.tick pick = r ∨
        ∃ x caller, r.q.items = x :: (r.tick pick).q.items ∧
          (r.tick pick).handoffs = r.handoffs ++ [(x, caller)] ∧
          r.waiting.get? pick = some caller) := by
  refine ⟨by decide, by decide, by decide, by decide, by decide, by decide, ?_⟩
  intro r pick
  unfold LeakyBucketRateLimiter.tick FixedFIFO.DequeueOrWaitForNextElement
  by_cases hs : r.isStarted = true
  · cases hq : r.q.items with
    | nil => left; simp [hs]
    | cons x xs =>
      cases hw : r.waiting.get? pick with
      | none => left; simp [hs, hw]
      | some caller => right; exact ⟨x, caller, by simp [hs, hw]⟩
  · left; simp [hs]

/-- C8, the code on a running limiter and a descriptor with `Unit = 1`: whatever the scheduler
does, `SetFrequency` leaves the flag `isStarted` false and the queue empty. When the launched
goroutine begins before the deferred `Stop()` (and the interval is positive), that `Stop()`
stops the new worker: two stop signals were sent and no launched `start()` is left beyond those
pending before the call. When it has not begun, one launched `start()` is pending at return. -/
theorem C8_SetFrequency_ends_stopped (r : LeakyBucketRateLimiter) (f : Frequency)
    (hr : r.isStarted = true) (hf : f.Unit = 1) (hi : 0 < f.Interval) :
    (∀ early, (r.SetFrequency f early).state.isStarted = false ∧
        (r.SetFrequency f early).state.q.items = [] ∧
        (r.SetFrequency f early).state.frequency = f) ∧
      (∃ s, r.SetFrequency f true = .ok s () ∧ s.isStarted = false ∧
        s.pendingStarts = r.pendingStarts ∧ s.stopSignals = r.stopSignals + 2) ∧
      (∃ s, r.SetFrequency f false = .ok s () ∧ s.isStarted = false ∧
        s.pendingStarts = r.pendingStarts + 1 ∧ s.stopSignals = r.stopSignals + 1) := by
  have hi2 : ¬ f.Interval ≤ 0 := by omega
  refine ⟨?_, ?_, ?_⟩
  · intro early
    cases early <;>
      simp [LeakyBucketRateLimiter.SetFrequency, LeakyBucketRateLimiter.Stop,
        LeakyBucketRateLimiter.workerBegin, LeakyBucketRateLimiter.start, hr, hf, hi2,
        Outcome.state, NewFixedFIFO]
  · simp [LeakyBucketRateLimiter.SetFrequency, LeakyBucketRateLimiter.Stop,
      LeakyBucketRateLimiter.workerBegin, LeakyBucketRateLimiter.start, hr, hf, hi2]
  · simp [LeakyBucketRateLimiter.SetFrequency, LeakyBucketRateLimiter.Stop, hr, hf]

/-- C8 at a running limiter with one queued request. -/
theorem C8_SetFrequency_ends_stopped_witness :
    (∀ early, (busyLeaky.SetFrequency { Unit := 1, Interval := 2000000 } early).state.isStarted
          = false ∧
        (busyLeaky.SetFrequency { Unit := 1, Interval := 2000000 } early).state.q.items = [] ∧
        (busyLeaky.SetFrequency { Unit := 1, Interval := 2000000 } early).state.frequency
          = { Unit := 1, Interval := 2000000 }) ∧
      (∃ s, busyLeaky.SetFrequency { Unit := 1, Interval := 2000000 } true = .ok s () ∧
        s.isStarted = false ∧ s.pendingStarts = busyLeaky.pendingStarts ∧
        s.stopSignals = busyLeaky.stopSignals + 2) ∧
      (∃ s, busyLeaky.SetFrequency { Unit := 1, Interval := 2000000 } false = .ok s () ∧
        s.isStarted = false ∧ s.pendingStarts = busyLeaky.pendingStarts + 1 ∧
        s.stopSignals = busyLeaky.stopSignals + 1) :=
  C8_SetFrequency_ends_stopped busyLeaky { Unit := 1, Interval := 2000000 } (by decide)
    (by decide) (by decide)

/-- C9: for every token bucket and every leaky bucket, `Stop()` twice leaves the state that
`Stop()` once leaves, with the flag cleared and at most one stop signal sent; and `Stop()` on a
limiter that is not started changes nothing, so sends no signal. On a started limiter exactly
one signal is sent. -/
theorem C9_Stop_idempotent (t : TokenBucketRateLimiter) (l : LeakyBucketRateLimiter) :
    (t.Stop.Stop = t.Stop ∧ t.Stop.isStarted = false ∧
        t.Stop.Stop.stopSignals ≤ t.stopSignals + 1 ∧
        (t.isStarted = false → t.Stop = t) ∧
        (t.isStarted = true → t.Stop.Stop.stopSignals = t.stopSignals + 1)) ∧
      (l.Stop.Stop = l.Stop ∧ l.Stop.isStarted = false ∧
        l.Stop.Stop.stopSignals ≤ l.stopSignals + 1 ∧
        (l.isStarted = false → l.Stop = l) ∧
        (l.isStarted = true → l.Stop.Stop.stopSignals = l.stopSignals + 1 ∧
          l.Stop.q.items = [])) := by
  constructor
  · by_cases hs : t.isStarted = true <;> simp [TokenBucketRateLimiter.Stop, hs]
  · by_cases hs : l.isStarted = true <;>
      simp [LeakyBucketRateLimiter.Stop, hs, NewFixedFIFO]

/-! ## Further properties of the code -/

/-- When no call overlaps another call or a refill: for a limiter constructed with an `int64`
`Unit = U > 0` and never reconfigured, in every state reached by `AllowRequest` calls, worker
beginnings, refill ticks and `Stop` calls (`es₁`), each run to its end before the next begins,
every further such sequence without a refill tick (`es₂`) has at most `U` `AllowRequest` calls
that return `true`. -/
theorem admission_budget_without_overlap (U interval : Int) (es₁ es₂ : List TokenBucketEvent)
    (hU : 0 < U ∧ isInt64 U)
    (h₁ : ∀ f, TokenBucketEvent.setFrequency f ∉ es₁)
    (h₂ : ∀ f, TokenBucketEvent.setFrequency f ∉ es₂)
    (hnt : TokenBucketEvent.tick ∉ es₂) :
    ((((NewTokenBucketRateLimiter { Unit := U, Interval := interval }).run es₁).admissions es₂
        : Nat) : Int) ≤ U ∧
      (((NewTokenBucketRateLimiter { Unit := U, Interval := interval }).admissions es₂
        : Nat) : Int) ≤ U := by
  have key : ∀ r : TokenBucketRateLimiter, r.frequency.Unit = U → 0 ≤ r.currentToken →
      r.currentToken ≤ U → ((r.admissions es₂ : Nat) : Int) ≤ U := by
    intro r a b c
    have hmax : r.currentToken ≤ maxInt64 := by
      have := hU.2
      unfold isInt64 at this
      unfold maxInt64
      omega
    have h3 := TokenBucketRateLimiter.admissions_eq_sub es₂ hnt r hmax
    obtain ⟨_, d, _⟩ := TokenBucketRateLimiter.run_within_unit U es₂ hU.2 hU.1 r a b c h₂
    omega
  constructor
  · obtain ⟨a, b, c⟩ := TokenBucketRateLimiter.run_within_unit U es₁ hU.2 hU.1
      (NewTokenBucketRateLimiter { Unit := U, Interval := interval }) rfl
      (by simp [NewTokenBucketRateLimiter]) (by simp [NewTokenBucketRateLimiter]; omega) h₁
    exact key _ a b c
  · exact key _ rfl (by simp [NewTokenBucketRateLimiter])
      (by simp [NewTokenBucketRateLimiter]; omega)

/-- The budget at `Unit = 5`: after the first tick, seven requests in a row. -/
theorem admission_budget_without_overlap_witness :
    ((((NewTokenBucketRateLimiter { Unit := 5, Interval := 1000000 }).run
        [.workerBegin, .tick]).admissions
          (List.replicate 7 (.allowRequest .tokenBucket)) : Nat) : Int) ≤ 5 ∧
      (((NewTokenBucketRateLimiter { Unit := 5, Interval := 1000000 }).admissions
          (List.replicate 7 (.allowRequest .tokenBucket)) : Nat) : Int) ≤ 5 :=
  admission_budget_without_overlap 5 1000000 [.workerBegin, .tick]
    (List.replicate 7 (.allowRequest .tokenBucket)) (by decide)
    (by intro f hf; simp at hf) (by intro f hf; simp [List.replicate] at hf)
    (by simp [List.replicate])

/-- `AllowRequest` on a request of the right type is its load followed by its add; and when two
calls overlap at a bucket holding one token, so that both load before either adds, both return
`true` and the counter ends at `-1`. -/
theorem AllowRequest_overlap :
    (∀ r : TokenBucketRateLimiter, r.AllowRequest .tokenBucket
        = .ok (r.AllowRequest_add r.AllowRequest_load).1
              (r.AllowRequest_add r.AllowRequest_load).2) ∧
      (lastToken.AllowRequest_add lastToken.AllowRequest_load).2 = true ∧
      ((lastToken.AllowRequest_add lastToken.AllowRequest_load).1.AllowRequest_add
          lastToken.AllowRequest_load).2 = true ∧
      ((lastToken.AllowRequest_add lastToken.AllowRequest_load).1.AllowRequest_add
          lastToken.AllowRequest_load).1.CurrentToken = -1 := by
  refine ⟨?_, by decide, by decide, by decide⟩
  intro r
  unfold TokenBucketRateLimiter.AllowRequest TokenBucketRateLimiter.AllowRequest_add
    TokenBucketRateLimiter.AllowRequest_load
  by_cases hc : r.currentToken > 0 <;> simp [hc]

/-- The token bucket's `SetFrequency` installs the descriptor, keeps the counter, leaves the
flag cleared and one more launched `start()`; once a launched goroutine begins (with a positive
interval) the limiter is started. -/
theorem TokenBucket_SetFrequency_restart (r : TokenBucketRateLimiter) (f : Frequency)
    (hi : 0 < f.Interval) :
    (r.SetFrequency f).CurrentToken = r.CurrentToken ∧ (r.SetFrequency f).frequency = f ∧
      (r.SetFrequency f).isStarted = false ∧
      (r.SetFrequency f).pendingStarts = r.pendingStarts + 1 ∧
      (r.SetFrequency f).workerBegin.state.isStarted = true := by
  have hi2 : ¬ f.Interval ≤ 0 := by omega
  by_cases hs : r.isStarted = true <;>
    simp [TokenBucketRateLimiter.SetFrequency, TokenBucketRateLimiter.Stop,
      TokenBucketRateLimiter.CurrentToken, TokenBucketRateLimiter.workerBegin,
      TokenBucketRateLimiter.start, Outcome.state, hs, hi2]

/-- The restart at a bucket of `Unit = 5` holding three tokens. -/
theorem TokenBucket_SetFrequency_restart_witness :
    (threeTokens.SetFrequency { Unit := 2, Interval := 1000 }).CurrentToken
        = threeTokens.CurrentToken ∧
      (threeTokens.SetFrequency { Unit := 2, Interval := 1000 }).frequency
        = { Unit := 2, Interval := 1000 } ∧
      (threeTokens.SetFrequency { Unit := 2, Interval := 1000 }).isStarted = false ∧
      (threeTokens.SetFrequency { Unit := 2, Interval := 1000 }).pendingStarts
        = threeTokens.pendingStarts + 1 ∧
      (threeTokens.SetFrequency { Unit := 2, Interval := 1000 }).workerBegin.state.isStarted
        = true :=
  TokenBucket_SetFrequency_restart threeTokens { Unit := 2, Interval := 1000 } (by decide)

/-- `Stop()` on a started leaky bucket empties the queue and leaves every suspended caller
suspended; with the worker gone no tick releases any of them. -/
theorem LeakyBucket_Stop_strands_callers (r : LeakyBucketRateLimiter)
    (hs : r.isStarted = true) :
    r.Stop.q.items = [] ∧ r.Stop.waiting = r.waiting ∧ r.Stop.handoffs = r.handoffs ∧
      (∀ pick, r.Stop.tick pick = r.Stop) := by
  refine ⟨?_, ?_, ?_, ?_⟩
  · simp [LeakyBucketRateLimiter.Stop, hs, NewFixedFIFO]
  · simp [LeakyBucketRateLimiter.Stop, hs]
  · simp [LeakyBucketRateLimiter.Stop, hs]
  · intro pick
    simp [LeakyBucketRateLimiter.tick, LeakyBucketRateLimiter.Stop_isStarted]

/-- The stranded caller at a running limiter with one queued request. -/
theorem LeakyBucket_Stop_strands_callers_witness :
    busyLeaky.waiting = [.leakyBucket 1] ∧ busyLeaky.Stop.q.items = [] ∧
      busyLeaky.Stop.waiting = busyLeaky.waiting ∧
      busyLeaky.Stop.handoffs = busyLeaky.handoffs ∧
      (∀ pick, busyLeaky.Stop.tick pick = busyLeaky.Stop) :=
  ⟨by decide, LeakyBucket_Stop_strands_callers busyLeaky (by decide)⟩

/-- `NewLeakyBucketRateLimiter` with `Unit = 1` and a positive interval returns, on either
schedule, a limiter with the descriptor installed, an empty queue of the given capacity and a
launched `start()` still pending; once the launched goroutines have begun it is started. -/
theorem NewLeakyBucket_ends_started (f : Frequency) (capacity : Int) (early : Bool)
    (hf : f.Unit = 1) (hi : 0 < f.Interval) :
    ∃ s, NewLeakyBucketRateLimiter f capacity early = .ok s () ∧ s.frequency = f ∧
      s.q = NewFixedFIFO capacity ∧ s.capacity = capacity ∧ 1 ≤ s.pendingStarts ∧
      (s.run [.workerBegin, .workerBegin]).isStarted = true ∧
      (s.run [.workerBegin, .workerBegin]).pendingStarts = 0 := by
  have hi2 : ¬ f.Interval ≤ 0 := by omega
  cases early <;>
    simp [NewLeakyBucketRateLimiter, LeakyBucketRateLimiter.SetFrequency,
      LeakyBucketRateLimiter.Stop, LeakyBucketRateLimiter.workerBegin,
      LeakyBucketRateLimiter.start, LeakyBucketRateLimiter.run, LeakyBucketRateLimiter.step,
      Outcome.state, hf, hi2]

/-- The constructor at one request per millisecond and capacity 2000. -/
theorem NewLeakyBucket_ends_started_witness :
    ∃ s, NewLeakyBucketRateLimiter { Unit := 1, Interval := 1000000 } 2000 true = .ok s () ∧
      s.frequency = { Unit := 1, Interval := 1000000 } ∧
      s.q = NewFixedFIFO 2000 ∧ s.capacity = 2000 ∧ 1 ≤ s.pendingStarts ∧
      (s.run [.workerBegin, .workerBegin]).isStarted = true ∧
      (s.run [.workerBegin, .workerBegin]).pendingStarts = 0 :=
  NewLeakyBucket_ends_started { Unit := 1, Interval := 1000000 } 2000 true (by decide)
    (by decide)

/-- In every interleaving of the atomic operations on a token bucket constructed with an
`int64` `Unit = U > 0` and never reconfigured, with at most `N` calls overlapping
(`N <= 2^62`), the counter is at most `U` and at least `-N`; so no refill finds the counter
above `Unit`, whether or not calls overlap. -/
theorem never_above_unit_interleaved (U interval : Int) (N : Nat) (ops : List TokenBucketOp)
    (hU : 0 < U ∧ isInt64 U) (hN : (N : Int) ≤ 4611686018427387904)
    (hno : ∀ f, TokenBucketOp.setFrequency f ∉ ops)
    (hfew : (NewTokenBucketRateLimiter { Unit := U, Interval := interval }).atRest.fewerInFlight
      N ops) :
    ((NewTokenBucketRateLimiter { Unit := U, Interval := interval }).atRest.exec
        ops).limiter.CurrentToken ≤ U ∧
      -(N : Int) ≤ ((NewTokenBucketRateLimiter { Unit := U, Interval := interval }).atRest.exec
        ops).limiter.CurrentToken ∧
      ((NewTokenBucketRateLimiter { Unit := U, Interval := interval }).atRest.exec
        ops).limiter.frequency.Unit = U := by
  have h0 : (NewTokenBucketRateLimiter { Unit := U, Interval := interval }).atRest.Bounded
      U N := by
    refine ⟨rfl, ?_, ?_, ?_, trivial⟩
    · show (0 : Int) ≤ U
      omega
    · show ((TokenBucketProcess.positives [] : Nat) : Int) ≤ 0 + N
      simp [TokenBucketProcess.positives]
    · simp [TokenBucketRateLimiter.atRest]
  obtain ⟨a, b, c, _, _⟩ := TokenBucketProcess.exec_bounded U N hU hN ops _ h0 hno hfew
  refine ⟨b, ?_, a⟩
  simp only [TokenBucketRateLimiter.CurrentToken]
  omega

/-- The bounds at `Unit = 1` and three overlapping calls around a refill. -/
theorem never_above_unit_interleaved_witness :
    ((NewTokenBucketRateLimiter { Unit := 1, Interval := 1000000 }).atRest.exec
        (firstRefill ++ threeOverlapping)).limiter.CurrentToken ≤ 1 ∧
      -((3 : Nat) : Int) ≤
        ((NewTokenBucketRateLimiter { Unit := 1, Interval := 1000000 }).atRest.exec
          (firstRefill ++ threeOverlapping)).limiter.CurrentToken ∧
      ((NewTokenBucketRateLimiter { Unit := 1, Interval := 1000000 }).atRest.exec
        (firstRefill ++ threeOverlapping)).limiter.frequency.Unit = 1 :=
  never_above_unit_interleaved 1 1000000 3 (firstRefill ++ threeOverlapping) (by decide)
    (by decide)
    (by intro f hf; simp [firstRefill, threeOverlapping] at hf)
    (by
      simp [firstRefill, threeOverlapping, TokenBucketProcess.fewerInFlight,
        TokenBucketProcess.apply, TokenBucketRateLimiter.atRest, NewTokenBucketRateLimiter,
        TokenBucketRateLimiter.workerBegin, TokenBucketRateLimiter.start,
        TokenBucketRateLimiter.refill_add, TokenBucketRateLimiter.AllowRequest_load,
        TokenBucketRateLimiter.AllowRequest_add, Outcome.state, wrap64])

end RateLimiter
